import Mathlib

/-! FAT12 read-only accessor (`fat12.c`): shallow embedding and verified properties.

Conventions of the embedding.

* A byte buffer (`char *`) is a `List Nat`: the bytes that were actually loaded into
  the buffer, starting at the pointer.  `buffer + i` is `buffer.drop i`.  A read at an
  index outside the loaded bytes has no defined result in C; the embedding returns
  `none` (or the `fault` outcome) there.
* `unsigned int` is a `Nat` below `2 ^ 32 = 4294967296`; arithmetic that can wrap is
  reduced modulo `4294967296` explicitly.
* A C string held in a `char` array is the array content as a `List Nat`; the string
  itself is `cstr`, the bytes before the first NUL.  The string functions are
  embedded as functions on the whole array, so the bytes that stay behind the
  terminator are kept.
* In two places the handling of names leaves what C defines.  The function
  `fill_directory_entry` copies as a string a local `buffer[13]` of which only the
  bytes 0 to 10 were written, and `add_period` builds the dotted name in a local
  `strC[11]` that is too small for a name of 10 characters or more.  The definitions
  of these two functions follow the executions in which the unwritten byte
  `buffer[11]` holds NUL and the writes behind `strC` do no harm; `buffer_string` and
  `strC_bytes_written` tell what the code reads and writes there.
* `fat12.h` is not part of the sources: the fields of `fat12volume` and `dir_entry`
  are taken from their uses in `fat12.c`, and `DIR_ENTRY_SIZE` is 32.
-/

namespace Fat12

/-! ## Data model -/

/-- The fields of `struct tm` written by `fill_directory_entry`. -/
structure tm where
  tm_hour : Nat
  tm_min : Nat
  tm_sec : Nat
  tm_year : Nat
  tm_mon : Nat
  tm_mday : Nat
  tm_isdst : Int
deriving DecidableEq, Repr

/-- The `dir_entry` structure: `filename` is the whole `char` array. -/
structure dir_entry where
  filename : List Nat
  ctime : tm
  size : Nat
  first_cluster : Nat
  is_directory : Nat
deriving DecidableEq, Repr

/-- The `fat12volume` structure.  `volume_file` is the content of the open volume
file; `fat_array` and `rootdir_array` are the bytes loaded by `open_volume_file`. -/
structure fat12volume where
  volume_file : List Nat
  sector_size : Nat
  cluster_size : Nat
  reserved_sectors : Nat
  hidden_sectors : Nat
  fat_offset : Nat
  fat_num_sectors : Nat
  fat_copies : Nat
  fat_array : List Nat
  rootdir_offset : Nat
  rootdir_entries : Nat
  rootdir_num_sectors : Nat
  rootdir_array : List Nat
  cluster_offset : Nat
deriving DecidableEq, Repr

/-! ## Integers and strings -/

/-- The loop of `read_unsigned_le`: `while (num_bytes-- > 0)
`number = (number << 8) | (buffer[num_bytes + position] & 0xff)`. -/
def read_unsigned_le_loop (buffer : List Nat) (position : Nat) : Nat → Nat → Option Nat
  | 0, number => some number
  | num_bytes + 1, number =>
    match buffer[num_bytes + position]? with
    | none => none
    | some b =>
      read_unsigned_le_loop buffer position num_bytes ((number <<< 8) ||| (b &&& 0xff))

/-- The function `read_unsigned_le(buffer, position, num_bytes)`; the `long` accumulator is
returned as `unsigned int`.  `none`: a byte outside the loaded buffer was read. -/
def read_unsigned_le (buffer : List Nat) (position num_bytes : Nat) : Option Nat :=
  match read_unsigned_le_loop buffer position num_bytes 0 with
  | none => none
  | some number => some (number % 4294967296)

/-- The C string stored at the start of a `char` array: the bytes before the first NUL. -/
def cstr (s : List Nat) : List Nat := s.takeWhile (fun c => c != 0)

/-- Writing the string `s` and its terminator at the start of the array `dst`; the
bytes of `dst` behind the terminator stay. -/
def store (dst s : List Nat) : List Nat := s ++ 0 :: dst.drop (s.length + 1)

/-- The function `strcpy(dst, src)` / `stpcpy(dst, src)` (the returned pointer is never used). -/
def strcpy (dst src : List Nat) : List Nat := store dst (cstr src)

/-- The function `remove_spaces(source)`: the characters of the string other than `' '` are moved
to the front, in order, and terminated; the loop writes nothing behind the new
terminator. -/
def remove_spaces (source : List Nat) : List Nat :=
  store source ((cstr source).filter (fun c => c != 32))

/-- The function `add_period(source)`: `strncpy(strC, source, 8); strC[8] = 0; strcat(strC, ".");`
`strcat(strC, source + 8); strcpy(source, strC)`.  `source + 8` is read as a string
wherever the terminator of `source` is: when the string is shorter than 8 characters
these are the bytes left in the array behind its terminator.  The local is declared
`char strC[11]`: for a string of 10 characters or more the code writes behind its
end (`strC_bytes_written` counts the bytes written), which C leaves undefined.  This
definition follows the executions in which these writes do no harm, as if `strC`
were large enough. -/
def add_period (source : List Nat) : List Nat :=
  let strC := (cstr source).take 8
  let strC := strC ++ [46]
  let strC := strC ++ cstr (source.drop 8)
  store source strC

/-- The function `count_tokens(path)`: the number of `'/'` characters of the string. -/
def count_tokens (path : List Nat) : Nat := (cstr path).count 47

/-- The call `strtok(s, "/")` on the string content `s` left to scan: `none` is the NULL
result; otherwise the token (as a terminated array) and the content left behind the
delimiter that ended it. -/
def strtok (s : List Nat) : Option (List Nat × List Nat) :=
  let s1 := s.dropWhile (fun c => c == 47)
  if s1 = [] then none
  else some (s1.takeWhile (fun c => c != 47) ++ [0], (s1.dropWhile (fun c => c != 47)).drop 1)

/-- The test `strcmp(a, b) == 0`. -/
def strcmp_eq (a b : List Nat) : Bool := cstr a == cstr b

/-! ## Sector and cluster access -/

/-- The function `read_sectors(volume, first_sector, num_sectors, &buffer)`.  The result is the
returned byte count and the new value of `*buffer` (`none`: `*buffer` is left as it
was); the bytes loaded are the `bytes_read` bytes that `fread` delivered.  The outer
`none`: `array_size` is negative as an `int`, so nothing can be allocated. -/
def read_sectors (volume : fat12volume) (first_sector num_sectors : Nat) :
    Option (Nat × Option (List Nat)) :=
  let sector_size := volume.sector_size
  let array_size := (num_sectors * sector_size) % 4294967296
  let filelen := volume.volume_file.length
  if (first_sector * sector_size) % 4294967296 > filelen ∨ num_sectors = 0 then some (0, none)
  else if 2147483648 ≤ array_size then none
  else
    let temp := (volume.volume_file.drop ((first_sector * sector_size) % 4294967296)).take array_size
    some (temp.length, some temp)

/-- The function `read_cluster(volume, cluster, &buffer)`. -/
def read_cluster (volume : fat12volume) (cluster : Nat) : Option (Nat × Option (List Nat)) :=
  let firstSector := (cluster * volume.cluster_size + 33) % 4294967296
  let clusterSize := volume.cluster_size
  read_sectors volume firstSector clusterSize

/-- The function `get_next_cluster(volume, cluster)`.  `none`: a byte outside the loaded FAT was
read (the C function has no error result). -/
def get_next_cluster (volume : fat12volume) (cluster : Nat) : Option Nat :=
  let position :=
    if cluster % 2 = 0 then (cluster * 3) % 4294967296 / 2
    else ((cluster - 1) * 3) % 4294967296 / 2
  match read_unsigned_le volume.fat_array position 3 with
  | none => none
  | some bytes => some (if cluster % 2 = 0 then bytes % 4096 else bytes / 4096)

/-! ## Directory entries -/

/-- The function `fill_directory_entry(data, entry)`.  `none`: the slot is not inside the loaded
bytes.  The local `buffer[13]` receives the 11 name bytes and `stpcpy` copies it as a
string.  The code never writes `buffer[11]` and `buffer[12]`: for a slot with no NUL
among its name bytes the copy reads them, and what is copied is not determined by
the slot.  This definition follows the executions in which `buffer[11]` holds NUL;
`buffer_string` gives the string copied for any content of the unwritten bytes. -/
def fill_directory_entry (data : List Nat) (entry : dir_entry) : Option dir_entry :=
  match read_unsigned_le data 24 2, read_unsigned_le data 22 2, read_unsigned_le data 11 1,
        read_unsigned_le data 28 4, read_unsigned_le data 26 2 with
  | some date, some time, some directoryBit, some size, some first_cluster =>
    some {
      filename := strcpy entry.filename (data.take 11 ++ [0])
      ctime := {
        tm_hour := (((1 <<< 5) - 1) &&& (time >>> (16 - 5)))
        tm_min := (((1 <<< 6) - 1) &&& (time >>> (6 - 1)))
        tm_sec := 2 * (((1 <<< 5) - 1) &&& time)
        tm_year := (0x7f &&& (date >>> 9)) + 80
        tm_mon := 0x0f &&& (date >>> (6 - 1))
        tm_mday := ((1 <<< 5) - 1) &&& date
        tm_isdst := -1 }
      size := size
      first_cluster := first_cluster
      is_directory := if directoryBit &&& 0x10 = 0 then 0 else 1 }
  | _, _, _, _, _ => none

/-! ## Opening a volume -/

/-- Result of `open_volume_file`: the NULL return, a volume, or `fault` when the code
reads a byte of `buffer` that the file did not supply, divides by zero or cannot
allocate. -/
inductive OpenResult where
  | null
  | volume (v : fat12volume)
  | fault
deriving DecidableEq, Repr

/-- The call `open_volume_file(filename)` on a file with content `file`. -/
def open_volume_file (file : List Nat) : OpenResult :=
  let filelen := file.length
  if filelen = 0 then .null
  else
    match read_unsigned_le file 11 2, read_unsigned_le file 13 1, read_unsigned_le file 14 2,
          read_unsigned_le file 28 2, read_unsigned_le file 22 2, read_unsigned_le file 16 1 with
    | some sector_size, some cluster_size, some reserved_sectors,
      some hidden_sectors, some fat_num_sectors, some fat_copies =>
      let fat_offset := reserved_sectors
      let v0 : fat12volume :=
        { volume_file := file, sector_size := sector_size, cluster_size := cluster_size,
          reserved_sectors := reserved_sectors, hidden_sectors := hidden_sectors,
          fat_offset := fat_offset, fat_num_sectors := fat_num_sectors,
          fat_copies := fat_copies, fat_array := [], rootdir_offset := 0,
          rootdir_entries := 0, rootdir_num_sectors := 0, rootdir_array := [],
          cluster_offset := 0 }
      match read_sectors v0 fat_offset fat_num_sectors with
      | none => .fault
      | some (_, none) => .null
      | some (fat_bytes, some fat) =>
        if fat_bytes = 0 then .null
        else
        let rootdir_offset := (fat_offset + (fat_num_sectors * fat_copies) % 4294967296) % 4294967296
        match read_unsigned_le file 17 2 with
        | none => .fault
        | some rootdir_entries =>
          if sector_size = 0 then .fault
          else
            let rootdir_num_sectors := (rootdir_entries * 32) % 4294967296 / sector_size
            match read_sectors v0 rootdir_offset rootdir_num_sectors with
            | none => .fault
            | some (_, none) => .null
            | some (rootdir_bytes, some rootdir) =>
              if rootdir_bytes = 0 then .null
              else
              .volume { v0 with
                fat_array := fat
                rootdir_offset := rootdir_offset
                rootdir_entries := rootdir_entries
                rootdir_num_sectors := rootdir_num_sectors
                rootdir_array := rootdir
                cluster_offset :=
                  (rootdir_offset + rootdir_num_sectors + 4294967296
                    - (2 * cluster_size) % 4294967296) % 4294967296 }
    | _, _, _, _, _, _ => .fault

/-! ## Path resolution -/

/-- How `find_directory_entry` ends: `return 0` with `*entry` filled, `return -ENOENT`,
`return -ENOTDIR`; `fault` when the code dereferences NULL or reads outside the
loaded bytes of a buffer; `nofuel` when the cluster loop was cut off. -/
inductive Outcome where
  | ret0 (entry : dir_entry)
  | enoent
  | enotdir
  | fault
  | nofuel
deriving DecidableEq, Repr

/-- The value returned by `find_directory_entry`, with `ENOENT = 2`, `ENOTDIR = 20`. -/
def Outcome.code : Outcome → Option Int
  | .ret0 _ => some 0
  | .enoent => some (-2)
  | .enotdir => some (-20)
  | .fault => none
  | .nofuel => none

/-- How a scan over the slots of one buffer ends: a match on the last component
(`return 0`), a match on an earlier component (the code goes on at `nextCluster`),
no match, or a read outside the loaded bytes.  `matched` and `exhausted` carry the
value of `temp` left by the scan. -/
inductive ScanResult where
  | found (entry : dir_entry)
  | matched (temp : dir_entry)
  | exhausted (temp : dir_entry)
  | fault
deriving DecidableEq, Repr

/-- Lines 371-380 and 426-435: the slot at `data` is decoded into `temp`, a period is
added to the name of a non-directory, and the spaces are removed. -/
def scan_slot (data : List Nat) (temp : dir_entry) : Option dir_entry :=
  match fill_directory_entry data temp with
  | none => none
  | some t =>
    some { t with
      filename := remove_spaces (if t.is_directory = 0 then add_period t.filename else t.filename) }

/-- Lines 387-388 and 439-440: `fill_directory_entry(data, entry);`
`stpcpy(entry->filename, name)`. -/
def fill_result (data : List Nat) (entry : dir_entry) (name : List Nat) : ScanResult :=
  match fill_directory_entry data entry with
  | none => .fault
  | some e => .found { e with filename := strcpy e.filename name }

/-- Number of iterations of `for (int i = 0; i < rootdir_entries * 32; i = i + 32)`:
the number of root slots, `rootdir_entries` unless the product wraps. -/
def root_slots (volume : fat12volume) : Nat :=
  ((volume.rootdir_entries * 32) % 4294967296 + 31) / 32

/-- The `for` loop over the root directory (lines 370-393), up to the first slot that
matches; `k` is the slot index (`i = 32 * k`), `n` the number of iterations left.
`token_counter` is 1 during this loop. -/
def root_loop (volume : fat12volume) (token_count : Nat) (entry : dir_entry) :
    Nat → Nat → List Nat → dir_entry → ScanResult
  | 0, _, _, temp => .exhausted temp
  | n + 1, k, token, temp =>
    match scan_slot (volume.rootdir_array.drop (32 * k)) temp with
    | none => .fault
    | some t =>
      let token := remove_spaces token
      if strcmp_eq t.filename token ∧ 1 = token_count then
        fill_result (volume.rootdir_array.drop (32 * k)) entry t.filename
      else if strcmp_eq t.filename token then .matched t
      else root_loop volume token_count entry n (k + 1) token t

/-- The `for` loop over the slots of a cluster buffer (lines 425-448). -/
def cluster_loop (token_count : Nat) (entry : dir_entry) (token : List Nat)
    (token_counter : Nat) (buffer : List Nat) : Nat → Nat → dir_entry → ScanResult
  | 0, _, temp => .exhausted temp
  | n + 1, k, temp =>
    match scan_slot (buffer.drop (32 * k)) temp with
    | none => .fault
    | some t =>
      if strcmp_eq token t.filename ∧ token_counter = token_count then
        fill_result (buffer.drop (32 * k)) entry t.filename
      else if strcmp_eq token t.filename then .matched t
      else cluster_loop token_count entry token token_counter buffer n (k + 1) t

/-- The locals of `find_directory_entry` that live across the cluster loop: the
current token, the string left for `strtok`, `token_counter`, `temp`, `buffer`
(`none` is NULL), and the clusters passed to `read_cluster` so far, in order. -/
structure Cursor where
  token : List Nat
  rest : List Nat
  token_counter : Nat
  temp : dir_entry
  buffer : Option (List Nat)
  reads : List Nat
deriving DecidableEq, Repr

/-- Lines 393-403, reached with `strcmp(name, token) == 0`: the next token is taken,
`token_counter` is incremented, `remove_spaces(token)` is called (a NULL token is
dereferenced there) and the first cluster of `temp` is read into `buffer`. -/
def next_component (volume : fat12volume) (st : Cursor) : Option Cursor :=
  match strtok st.rest with
  | none => none
  | some (token, rest) =>
    match read_cluster volume st.temp.first_cluster with
    | none => none
    | some (_, b) =>
      some { token := remove_spaces token, rest := rest,
             token_counter := st.token_counter + 1, temp := st.temp,
             buffer := match b with
               | some data => some data
               | none => st.buffer,
             reads := st.reads ++ [st.temp.first_cluster] }

/-- Number of iterations of `for (i = 0; i < cluster_size * sector_size; i = i + 32)`. -/
def cluster_slots (volume : fat12volume) : Nat :=
  ((volume.cluster_size * volume.sector_size) % 4294967296 + 31) / 32

/-- The `while(1)` loop (lines 411-462), one unit of fuel per iteration; `curr` is
`curr_cluster_number`.  The result is the outcome and the clusters passed to
`read_cluster`. -/
def chain_loop (volume : fat12volume) (token_count : Nat) (entry : dir_entry) :
    Nat → Cursor → Nat → Outcome × List Nat
  | 0, st, _ => (.nofuel, st.reads)
  | fuel + 1, st, curr =>
    let scan : ScanResult :=
      match st.buffer with
      | none => if cluster_slots volume = 0 then .exhausted st.temp else .fault
      | some buffer =>
        cluster_loop token_count entry st.token st.token_counter buffer
          (cluster_slots volume) 0 st.temp
    match scan with
    | .fault => (.fault, st.reads)
    | .found e => (.ret0 e, st.reads)
    | .matched t =>
      match next_component volume { st with temp := t } with
      | none => (.fault, st.reads)
      | some st1 => chain_loop volume token_count entry fuel st1 t.first_cluster
    | .exhausted t =>
      match get_next_cluster volume curr with
      | none => (.fault, st.reads)
      | some next_cluster_number =>
        if next_cluster_number = 4088 then
          (if st.token_counter = token_count then .enoent else .enotdir, st.reads)
        else
          match read_cluster volume next_cluster_number with
          | none => (.fault, st.reads ++ [next_cluster_number])
          | some (_, b) =>
            chain_loop volume token_count entry fuel
              { st with
                temp := t
                buffer := match b with
                  | some data => some data
                  | none => st.buffer
                reads := st.reads ++ [next_cluster_number] }
              next_cluster_number

/-- The function `find_directory_entry(volume, path, entry)`.  `temp` is the initial content of the
local of that name, which the code does not initialise; `fuel` bounds the number of
iterations of the cluster loop.  The result is the outcome and the clusters passed
to `read_cluster`, in order. -/
def find_directory_entry (fuel : Nat) (volume : fat12volume) (path : List Nat)
    (entry temp : dir_entry) : Outcome × List Nat :=
  let token_count := count_tokens path
  match strtok (cstr path) with
  | none => (.enoent, [])
  | some (token, rest) =>
    match root_loop volume token_count entry (root_slots volume) 0 token temp with
    | .fault => (.fault, [])
    | .found e => (.ret0 e, [])
    | .exhausted _ => (.enoent, [])
    | .matched t =>
      match next_component volume
          { token := token, rest := rest, token_counter := 1, temp := t,
            buffer := none, reads := [] } with
      | none => (.fault, [])
      | some st => chain_loop volume token_count entry fuel st t.first_cluster

/-! ## Notions used in the statements -/

/-- The root directory slot number `k`: the pointer `rootdir_array + 32 * k`. -/
def root_slot (volume : fat12volume) (k : Nat) : List Nat := volume.rootdir_array.drop (32 * k)

/-- The normalized name that `scan_slot` computes for the slot at `data` when the
array `temp.filename` holds what `temp` holds: the string left in `temp.filename`,
in the executions that `fill_directory_entry` and `add_period` follow. -/
def slot_name (data : List Nat) (temp : dir_entry) : Option (List Nat) :=
  match scan_slot data temp with
  | none => none
  | some t => some (cstr t.filename)

/-- The name field of the slot holds at least 8 characters before its first NUL, so
that `source + 8` in `add_period` lies inside the string. -/
def name_complete (data : List Nat) : Prop := 8 ≤ (cstr (data.take 11)).length

instance (data : List Nat) : Decidable (name_complete data) := by
  unfold name_complete; infer_instance

/-- Closed form of the normalized name of a slot whose name field is complete. -/
def normalized_name (data : List Nat) : List Nat :=
  let raw := cstr (data.take 11)
  let dotted :=
    match read_unsigned_le data 11 1 with
    | some directoryBit =>
      if directoryBit &&& 0x10 = 0 then raw.take 8 ++ [46] ++ raw.drop 8 else raw
    | none => raw
  dotted.filter (fun c => c != 32)

/-! ## An example image -/

/-- A 32-byte directory slot with the given name field, attribute byte, first cluster
and size (each below 256). -/
def example_slot (name : List Nat) (attr cluster size : Nat) : List Nat :=
  name ++ [attr] ++ List.replicate 14 0 ++ [cluster, 0, size, 0, 0, 0]

/-- An image with 32-byte sectors, 1 sector per cluster, 1 reserved sector, 1 FAT
copy of 1 sector and 3 root entries.  FAT: 2 → 3, 3 → 0xFF8, 4 → 0xFFF, 5 → 0xFF8.
Root: directory `SUBDIR` (cluster 2), file `FILE.TXT` (cluster 5, 12 bytes),
directory `DIR2` (cluster 4).  `read_cluster` finds cluster `n` in sector `n + 33`:
sector 35 holds the slot `B.TXT`, sector 36 `A.TXT`, sector 37 `C.TXT`, sector 38 the
text of `FILE.TXT`. -/
def example_image : List Nat :=
  (List.replicate 11 0 ++ [32, 0, 1, 1, 0, 1, 3, 0] ++ List.replicate 3 0 ++ [1, 0]
      ++ List.replicate 8 0)
    ++ ([0xF0, 0xFF, 0xFF, 0x03, 0x80, 0xFF, 0xFF, 0x8F, 0xFF] ++ List.replicate 23 0)
    ++ example_slot [83, 85, 66, 68, 73, 82, 32, 32, 32, 32, 32] 0x10 2 0
    ++ example_slot [70, 73, 76, 69, 32, 32, 32, 32, 84, 88, 84] 0x20 5 12
    ++ example_slot [68, 73, 82, 50, 32, 32, 32, 32, 32, 32, 32] 0x10 4 0
    ++ List.replicate 960 0
    ++ example_slot [66, 32, 32, 32, 32, 32, 32, 32, 84, 88, 84] 0x20 7 5
    ++ example_slot [65, 32, 32, 32, 32, 32, 32, 32, 84, 88, 84] 0x20 9 77
    ++ example_slot [67, 32, 32, 32, 32, 32, 32, 32, 84, 88, 84] 0x20 8 1
    ++ ([104, 101, 108, 108, 111, 32, 119, 111, 114, 108, 100, 10] ++ List.replicate 20 0)

/-- The volume that `open_volume_file` builds from `example_image`. -/
def example_volume : fat12volume :=
  { volume_file := example_image
    sector_size := 32
    cluster_size := 1
    reserved_sectors := 1
    hidden_sectors := 0
    fat_offset := 1
    fat_num_sectors := 1
    fat_copies := 1
    fat_array := [0xF0, 0xFF, 0xFF, 0x03, 0x80, 0xFF, 0xFF, 0x8F, 0xFF] ++ List.replicate 23 0
    rootdir_offset := 2
    rootdir_entries := 3
    rootdir_num_sectors := 3
    rootdir_array :=
      example_slot [83, 85, 66, 68, 73, 82, 32, 32, 32, 32, 32] 0x10 2 0
        ++ example_slot [70, 73, 76, 69, 32, 32, 32, 32, 84, 88, 84] 0x20 5 12
        ++ example_slot [68, 73, 82, 50, 32, 32, 32, 32, 32, 32, 32] 0x10 4 0
    cluster_offset := 3 }

/-- An entry whose fields are all empty. -/
def blank_entry : dir_entry :=
  { filename := [], ctime := ⟨0, 0, 0, 0, 0, 0, 0⟩, size := 0, first_cluster := 0,
    is_directory := 0 }

/-- The 3-byte window of the FAT that holds the entry of `cluster` (bytes
`3 * (cluster / 2)` to `3 * (cluster / 2) + 2`) lies inside the loaded FAT. -/
def entry_window_inside (volume : fat12volume) (cluster : Nat) : Prop :=
  3 * (cluster / 2) + 3 ≤ volume.fat_array.length

instance (volume : fat12volume) (cluster : Nat) : Decidable (entry_window_inside volume cluster) := by
  unfold entry_window_inside; infer_instance

/-- The call `get_next_cluster(volume, cluster)` reads a byte outside the loaded FAT
(the embedding has no other way to produce `none`). -/
def reads_outside_fat (volume : fat12volume) (cluster : Nat) : Prop :=
  get_next_cluster volume cluster = none

instance (volume : fat12volume) (cluster : Nat) : Decidable (reads_outside_fat volume cluster) := by
  unfold reads_outside_fat; infer_instance

/-- The first 65 bytes of the example image: boot sector, FAT sector and one byte of
the root directory region (which the boot sector places in bytes 64 to 159). -/
def truncated_image : List Nat := example_image.take 65

/-! ## Notions used in the statements about decoding -/

/-- The byte at index `i` of a buffer, as the code reads it (`buffer[i] & 0xff`). -/
def byte_at (buffer : List Nat) (i : Nat) : Nat := buffer.getD i 0 % 256

/-- The little-endian 16-bit value at offset `p` of a buffer. -/
def le16 (buffer : List Nat) (p : Nat) : Nat := byte_at buffer p + 256 * byte_at buffer (p + 1)

/-- The little-endian 32-bit value at offset `p` of a buffer. -/
def le32 (buffer : List Nat) (p : Nat) : Nat :=
  byte_at buffer p + 256 * byte_at buffer (p + 1) + 65536 * byte_at buffer (p + 2)
    + 16777216 * byte_at buffer (p + 3)

/-- The conventional decoding of the FAT12 entry of cluster `c`: with `w` the
little-endian 16-bit value at byte offset `c + c / 2`, the entry is `w mod 4096`
for an even `c` and `w / 16` for an odd `c`. -/
def conventional_fat12_entry (fat : List Nat) (c : Nat) : Nat :=
  let w := le16 fat (c + c / 2)
  if c % 2 = 0 then w % 4096 else w / 16

/-- The path `/c1/c2/.../cn` made of the components `c1`, ..., `cn`. -/
def join_path : List (List Nat) → List Nat
  | [] => []
  | c :: cs => 47 :: c ++ join_path cs

/-- The strings that up to `fuel` successive calls of `strtok` yield on the string
`s`, in order. -/
def strtok_tokens : Nat → List Nat → List (List Nat)
  | 0, _ => []
  | fuel + 1, s =>
    match strtok s with
    | none => []
    | some (token, rest) => cstr token :: strtok_tokens fuel rest

/-- The tokens of a path: every call of `strtok` consumes at least one character. -/
def path_tokens (path : List Nat) : List (List Nat) :=
  strtok_tokens ((cstr path).length + 1) (cstr path)

/-- The last of the components `c :: cs`. -/
def last_component : List Nat → List (List Nat) → List Nat
  | c, [] => c
  | _, c1 :: cs => last_component c1 cs

/-- The entry `e` is what lines 387-388 or 439-440 leave in `*entry` for the slot at
`data`: the decode of the slot, with the normalized name that the scan of this slot
left in `temp.filename`. -/
def returned_from (data : List Nat) (entry e : dir_entry) : Prop :=
  ∃ t0 t d, scan_slot data t0 = some t ∧ fill_directory_entry data entry = some d ∧
    e = { d with filename := strcpy d.filename t.filename }

/-- The scan of the current `buffer` by one iteration of the `while(1)` loop (lines
425-448): with a NULL `buffer` the first slot is read through a null pointer. -/
def buffer_scan (volume : fat12volume) (token_count : Nat) (entry : dir_entry)
    (st : Cursor) : ScanResult :=
  match st.buffer with
  | none => if cluster_slots volume = 0 then .exhausted st.temp else .fault
  | some buffer =>
    cluster_loop token_count entry st.token st.token_counter buffer
      (cluster_slots volume) 0 st.temp

/-- The entry that `find_directory_entry` fills from the slot `A.TXT` of the example
volume when `*entry` was blank. -/
def example_a_txt : dir_entry :=
  { filename := [65, 46, 84, 88, 84, 0, 32, 32, 84, 88, 84, 0]
    ctime := ⟨0, 0, 0, 80, 0, 0, -1⟩
    size := 77
    first_cluster := 9
    is_directory := 0 }

/-! ## Where the name handling leaves defined behaviour -/

/-- The string that `stpcpy(entry->filename, buffer)` reads out of the local
`buffer[13]` of `fill_directory_entry` for the slot at `data`.  `memcpy` writes the
bytes 0 to 10 of `buffer` and nothing writes the others: `unwritten` is what the
memory holds from `buffer[11]` on.  The definition `fill_directory_entry` above is
the case in which `unwritten` starts with a NUL. -/
def buffer_string (data unwritten : List Nat) : List Nat := cstr (data.take 11 ++ unwritten)

/-- Number of bytes that `add_period(source)` writes into its local `strC`, declared
`char strC[11]`: the string it builds there and the terminator.  A count above 11 is
a write behind the end of the array. -/
def strC_bytes_written (source : List Nat) : Nat :=
  ((cstr source).take 8 ++ [46] ++ cstr (source.drop 8)).length + 1

/-! ## An image laid out as its boot sector says -/

/-- An image with 32-byte sectors, 1 sector per cluster, 1 reserved sector, 1 FAT
copy of 2 sectors and 3 root entries: the root directory is in sectors 3 to 5 and
the boot sector places cluster `n` in sector `n + 4`.  FAT: 2 → 0xFF8, 31 → 0xFF8.
Root: directory `SUBDIR` (cluster 2), directory `OTHER` (cluster 31), a free slot.
Cluster 2 (sector 6), the only cluster of `SUBDIR`, holds the directory slot `INNER`;
cluster 31 (sector 35), the only cluster of `OTHER`, holds the directory slot `DEEP`. -/
def laid_out_image : List Nat :=
  (List.replicate 11 0 ++ [32, 0, 1, 1, 0, 1, 3, 0] ++ List.replicate 3 0 ++ [2, 0]
      ++ List.replicate 8 0)
    ++ ([0xF0, 0xFF, 0xFF, 0xF8, 0x0F, 0x00] ++ List.replicate 39 0 ++ [0x00, 0x80, 0xFF]
      ++ List.replicate 16 0)
    ++ example_slot [83, 85, 66, 68, 73, 82, 32, 32, 32, 32, 32] 0x10 2 0
    ++ example_slot [79, 84, 72, 69, 82, 32, 32, 32, 32, 32, 32] 0x10 31 0
    ++ List.replicate 32 0
    ++ example_slot [73, 78, 78, 69, 82, 32, 32, 32, 32, 32, 32] 0x10 7 0
    ++ List.replicate 896 0
    ++ example_slot [68, 69, 69, 80, 32, 32, 32, 32, 32, 32, 32] 0x10 9 0

/-- The volume that `open_volume_file` builds from `laid_out_image`. -/
def laid_out_volume : fat12volume :=
  { volume_file := laid_out_image
    sector_size := 32
    cluster_size := 1
    reserved_sectors := 1
    hidden_sectors := 0
    fat_offset := 1
    fat_num_sectors := 2
    fat_copies := 1
    fat_array := [0xF0, 0xFF, 0xFF, 0xF8, 0x0F, 0x00] ++ List.replicate 39 0
      ++ [0x00, 0x80, 0xFF] ++ List.replicate 16 0
    rootdir_offset := 3
    rootdir_entries := 3
    rootdir_num_sectors := 3
    rootdir_array :=
      example_slot [83, 85, 66, 68, 73, 82, 32, 32, 32, 32, 32] 0x10 2 0
        ++ example_slot [79, 84, 72, 69, 82, 32, 32, 32, 32, 32, 32] 0x10 31 0
        ++ List.replicate 32 0
    cluster_offset := 4 }

/-- A volume with 512-byte sectors on a store of 1024 bytes, sector 0 filled with
the byte 7 and sector 1 with the byte 9; only the fields that `read_sectors` uses are
set. -/
def wrap_volume : fat12volume :=
  { volume_file := List.replicate 512 7 ++ List.replicate 512 9
    sector_size := 512
    cluster_size := 1
    reserved_sectors := 0
    hidden_sectors := 0
    fat_offset := 0
    fat_num_sectors := 0
    fat_copies := 0
    fat_array := []
    rootdir_offset := 0
    rootdir_entries := 0
    rootdir_num_sectors := 0
    rootdir_array := []
    cluster_offset := 0 }

/-! ## Notions used in the statement about the returned entry -/

/-- Every buffer that `buffer` can point to was loaded by one of the `read_cluster`
calls listed in `reads`. -/
def buffer_from_reads (volume : fat12volume) (reads : List Nat)
    (buffer : Option (List Nat)) : Prop :=
  ∀ b, buffer = some b → ∃ c n, c ∈ reads ∧ read_cluster volume c = some (n, some b)

/-- The bytes at `data` are a slot that the resolution has scanned in the volume: a
slot of the root directory array, no cluster having been read, or a slot of a
buffer loaded by one of the `read_cluster` calls listed in `reads`. -/
def scanned_slot (volume : fat12volume) (reads : List Nat) (data : List Nat) : Prop :=
  (reads = [] ∧ ∃ k, k < root_slots volume ∧ data = root_slot volume k) ∨
    (∃ c n buffer k, c ∈ reads ∧ read_cluster volume c = some (n, some buffer) ∧
      k < cluster_slots volume ∧ data = buffer.drop (32 * k))

/-! ## Strings: basic facts -/

theorem cstr_append_zero (s rest : List Nat) (h : 0 ∉ s) : cstr (s ++ 0 :: rest) = s := by
  induction s with
  | nil => simp [cstr]
  | cons a s ih =>
    have ha : a ≠ 0 := fun h0 => h (by simp [h0])
    have hs : 0 ∉ s := fun h0 => h (by simp [h0])
    have := ih hs
    simp only [cstr] at this ⊢
    simp [List.takeWhile_cons, ha, this]

theorem cstr_of_no_zero (s : List Nat) (h : 0 ∉ s) : cstr s = s := by
  induction s with
  | nil => simp [cstr]
  | cons a s ih =>
    have ha : a ≠ 0 := fun h0 => h (by simp [h0])
    have hs : 0 ∉ s := fun h0 => h (by simp [h0])
    have := ih hs
    simp only [cstr] at this ⊢
    simp [List.takeWhile_cons, ha, this]

theorem zero_not_mem_cstr (s : List Nat) : 0 ∉ cstr s := by
  intro h
  have := List.mem_takeWhile_imp h
  simp at this

theorem cstr_store (dst s : List Nat) (h : 0 ∉ s) : cstr (store dst s) = s :=
  cstr_append_zero s _ h

theorem cstr_strcpy (dst src : List Nat) : cstr (strcpy dst src) = cstr src :=
  cstr_store dst _ (zero_not_mem_cstr src)

theorem cstr_remove_spaces (b : List Nat) :
    cstr (remove_spaces b) = (cstr b).filter (fun c => c != 32) := by
  apply cstr_store
  intro h
  exact zero_not_mem_cstr b (List.mem_of_mem_filter h)

theorem space_not_mem_cstr_remove_spaces (b : List Nat) : 32 ∉ cstr (remove_spaces b) := by
  rw [cstr_remove_spaces]
  intro h
  have := (List.mem_filter.mp h).2
  simp at this

theorem filter_spaces_of_not_mem (s : List Nat) (h : 32 ∉ s) :
    s.filter (fun c => c != 32) = s := by
  apply List.filter_eq_self.mpr
  intro a ha
  have : a ≠ 32 := fun h0 => h (h0 ▸ ha)
  simp [this]

/-! ## Little-endian reads -/

theorem shl_or_byte (number b : Nat) :
    (number <<< 8) ||| (b &&& 0xff) = number * 256 + b % 256 := by
  have h1 : b &&& 0xff = b % 256 := Nat.and_pow_two_sub_one_eq_mod b 8
  have h2 : b % 256 < 2 ^ 8 := Nat.mod_lt _ (by norm_num)
  rw [h1, Nat.shiftLeft_eq, Nat.mul_comm number (2 ^ 8), ← Nat.mul_add_lt_is_or h2 number]

theorem read_unsigned_le_loop_some (buffer : List Nat) (position : Nat) :
    ∀ (n number : Nat), position + n ≤ buffer.length →
      ∃ v, read_unsigned_le_loop buffer position n number = some v := by
  intro n
  induction n with
  | zero => intro number _; exact ⟨number, rfl⟩
  | succ n ih =>
    intro number h
    have hlt : n + position < buffer.length := by omega
    simp only [read_unsigned_le_loop, List.getElem?_eq_getElem hlt]
    exact ih _ (by omega)

theorem read_unsigned_le_loop_none (buffer : List Nat) (position : Nat) :
    ∀ (n number : Nat), 0 < n → buffer.length < position + n →
      read_unsigned_le_loop buffer position n number = none := by
  intro n
  induction n with
  | zero => intro number h; omega
  | succ n ih =>
    intro number _ h
    by_cases hlt : n + position < buffer.length
    · have hn : 0 < n := by omega
      simp only [read_unsigned_le_loop, List.getElem?_eq_getElem hlt]
      exact ih _ hn (by omega)
    · have : buffer[n + position]? = none := List.getElem?_eq_none (by omega)
      simp only [read_unsigned_le_loop, this]

theorem read_unsigned_le_isSome (buffer : List Nat) (position n : Nat)
    (h : position + n ≤ buffer.length) : ∃ v, read_unsigned_le buffer position n = some v := by
  obtain ⟨v, hv⟩ := read_unsigned_le_loop_some buffer position n 0 h
  exact ⟨v % 4294967296, by simp [read_unsigned_le, hv]⟩

theorem read_unsigned_le_eq_none (buffer : List Nat) (position n : Nat) (hn : 0 < n)
    (h : buffer.length < position + n) : read_unsigned_le buffer position n = none := by
  simp [read_unsigned_le, read_unsigned_le_loop_none buffer position n 0 hn h]

theorem read_unsigned_le_length (buffer : List Nat) (position n v : Nat) (hn : 0 < n)
    (h : read_unsigned_le buffer position n = some v) : position + n ≤ buffer.length := by
  by_contra hc
  rw [read_unsigned_le_eq_none buffer position n hn (by omega)] at h
  exact Option.noConfusion h

/-- Three bytes read at `position`. -/
theorem read_unsigned_le_three (buffer : List Nat) (position b0 b1 b2 : Nat)
    (h0 : buffer[position]? = some b0) (h1 : buffer[position + 1]? = some b1)
    (h2 : buffer[position + 2]? = some b2) :
    read_unsigned_le buffer position 3
      = some (b0 % 256 + 256 * (b1 % 256) + 65536 * (b2 % 256)) := by
  have e0 : buffer[0 + position]? = some b0 := by rw [Nat.zero_add]; exact h0
  have e1 : buffer[1 + position]? = some b1 := by rw [Nat.add_comm]; exact h1
  have e2 : buffer[2 + position]? = some b2 := by rw [Nat.add_comm]; exact h2
  simp only [read_unsigned_le, read_unsigned_le_loop, e0, e1, e2, shl_or_byte]
  congr 1
  omega

/-! ## Decoding a slot -/

theorem fill_directory_entry_some (data : List Nat) (entry : dir_entry)
    (h : 32 ≤ data.length) : ∃ d, fill_directory_entry data entry = some d := by
  obtain ⟨v1, h1⟩ := read_unsigned_le_isSome data 24 2 (by omega)
  obtain ⟨v2, h2⟩ := read_unsigned_le_isSome data 22 2 (by omega)
  obtain ⟨v3, h3⟩ := read_unsigned_le_isSome data 11 1 (by omega)
  obtain ⟨v4, h4⟩ := read_unsigned_le_isSome data 28 4 (by omega)
  obtain ⟨v5, h5⟩ := read_unsigned_le_isSome data 26 2 (by omega)
  simp [fill_directory_entry, h1, h2, h3, h4, h5]

theorem fill_directory_entry_length (data : List Nat) (entry d : dir_entry)
    (h : fill_directory_entry data entry = some d) : 32 ≤ data.length := by
  by_contra hc
  have h4 : read_unsigned_le data 28 4 = none :=
    read_unsigned_le_eq_none data 28 4 (by omega) (by omega)
  unfold fill_directory_entry at h
  rw [h4] at h
  split at h <;> simp_all

/-- The decoded fields do not depend on what the entry held before; only the bytes
of `filename` behind the terminator do. -/
theorem fill_directory_entry_fields (data : List Nat) (e1 e2 d1 : dir_entry)
    (h : fill_directory_entry data e1 = some d1) :
    ∃ d2, fill_directory_entry data e2 = some d2 ∧ d2.size = d1.size ∧
      d2.first_cluster = d1.first_cluster ∧ d2.is_directory = d1.is_directory ∧
      d2.ctime = d1.ctime ∧ cstr d2.filename = cstr d1.filename := by
  unfold fill_directory_entry at h ⊢
  split at h
  · rename_i date time directoryBit size first_cluster h1 h2 h3 h4 h5
    simp only [Option.some.injEq] at h
    subst h
    simp [cstr_strcpy]
  · exact Option.noConfusion h

/-! ## Normalized names -/

theorem slot_name_some (data : List Nat) (temp : dir_entry) (h : 32 ≤ data.length) :
    ∃ t, scan_slot data temp = some t ∧ slot_name data temp = some (cstr t.filename) := by
  obtain ⟨d, hd⟩ := fill_directory_entry_some data temp h
  simp [slot_name, scan_slot, hd]

theorem slot_name_length (data : List Nat) (temp : dir_entry) (s : List Nat)
    (h : slot_name data temp = some s) : 32 ≤ data.length := by
  unfold slot_name scan_slot at h
  cases hf : fill_directory_entry data temp with
  | none => simp [hf] at h
  | some d => exact fill_directory_entry_length data temp d hf

theorem slot_name_no_space (data : List Nat) (temp : dir_entry) (s : List Nat)
    (h : slot_name data temp = some s) : 32 ∉ s := by
  unfold slot_name scan_slot at h
  cases hf : fill_directory_entry data temp with
  | none => simp [hf] at h
  | some d =>
    simp only [hf, Option.some.injEq] at h
    rw [← h]
    exact space_not_mem_cstr_remove_spaces _

theorem slot_name_no_zero (data : List Nat) (temp : dir_entry) (s : List Nat)
    (h : slot_name data temp = some s) : 0 ∉ s := by
  unfold slot_name at h
  cases hf : scan_slot data temp with
  | none => simp [hf] at h
  | some d =>
    simp only [hf, Option.some.injEq] at h
    rw [← h]
    exact zero_not_mem_cstr _

theorem cstr_take_append_zero (data : List Nat) :
    cstr (data.take 11 ++ [0]) = cstr (data.take 11) := by
  generalize data.take 11 = l
  induction l with
  | nil => simp [cstr]
  | cons a l ih =>
    simp only [cstr] at ih ⊢
    by_cases ha : a = 0
    · simp [ha]
    · simp [List.takeWhile_cons, ha, ih]

theorem drop_store (dst s : List Nat) (n : Nat) (h : n ≤ s.length) :
    (store dst s).drop n = s.drop n ++ 0 :: dst.drop (s.length + 1) := by
  unfold store
  rw [List.drop_append_of_le_length h]

/-- The string left by `add_period` in an array that holds a string of at least 8
characters. -/
theorem cstr_add_period (dst raw : List Nat) (h0 : 0 ∉ raw) (h8 : 8 ≤ raw.length) :
    cstr (add_period (store dst raw)) = raw.take 8 ++ [46] ++ raw.drop 8 := by
  unfold add_period
  simp only
  rw [cstr_store dst raw h0, drop_store dst raw 8 h8]
  have hd : 0 ∉ raw.drop 8 := fun h => h0 (List.mem_of_mem_drop h)
  rw [cstr_append_zero _ _ hd]
  apply cstr_store
  intro h
  simp only [List.mem_append, List.mem_singleton] at h
  rcases h with (h | h) | h
  · exact h0 (List.mem_of_mem_take h)
  · omega
  · exact hd h

/-- For a slot with a complete name field the name computed by the code is the
closed form `normalized_name`, whatever the array held before. -/
theorem slot_name_closed (data : List Nat) (temp : dir_entry) (h : 32 ≤ data.length)
    (hc : name_complete data) : slot_name data temp = some (normalized_name data) := by
  obtain ⟨v1, h1⟩ := read_unsigned_le_isSome data 24 2 (by omega)
  obtain ⟨v2, h2⟩ := read_unsigned_le_isSome data 22 2 (by omega)
  obtain ⟨v3, h3⟩ := read_unsigned_le_isSome data 11 1 (by omega)
  obtain ⟨v4, h4⟩ := read_unsigned_le_isSome data 28 4 (by omega)
  obtain ⟨v5, h5⟩ := read_unsigned_le_isSome data 26 2 (by omega)
  unfold name_complete at hc
  have hz : 0 ∉ cstr (data.take 11) := zero_not_mem_cstr _
  simp only [slot_name, scan_slot, fill_directory_entry, h1, h2, h3, h4, h5, normalized_name,
    strcpy, cstr_take_append_zero]
  by_cases hb : v3 &&& 0x10 = 0
  · simp only [hb, if_true, cstr_remove_spaces, cstr_add_period _ _ hz hc]
  · simp only [hb, if_false, cstr_remove_spaces]
    simp [cstr_remove_spaces, cstr_store _ _ hz]

/-! ## Tokens -/

theorem strtok_slash (s : List Nat) : strtok (47 :: s) = strtok s := by
  simp [strtok, List.dropWhile_cons]

theorem takeWhile_component (A tail : List Nat) (h47 : 47 ∉ A)
    (htail : ∀ c ∈ tail.head?, c = 47) :
    (A ++ tail).takeWhile (fun c => c != 47) = A := by
  induction A with
  | nil =>
    cases tail with
    | nil => rfl
    | cons c r =>
      have : c = 47 := htail c (by simp)
      simp [List.takeWhile_cons, this]
  | cons a A ih =>
    have ha : a ≠ 47 := fun h0 => h47 (by simp [h0])
    have hA : 47 ∉ A := fun h0 => h47 (by simp [h0])
    simp [List.takeWhile_cons, ha, ih hA]

theorem dropWhile_component (A tail : List Nat) (h47 : 47 ∉ A)
    (htail : ∀ c ∈ tail.head?, c = 47) :
    (A ++ tail).dropWhile (fun c => c != 47) = tail := by
  induction A with
  | nil =>
    cases tail with
    | nil => rfl
    | cons c r =>
      have : c = 47 := htail c (by simp)
      simp [List.dropWhile_cons, this]
  | cons a A ih =>
    have ha : a ≠ 47 := fun h0 => h47 (by simp [h0])
    have hA : 47 ∉ A := fun h0 => h47 (by simp [h0])
    simp [List.dropWhile_cons, ha, ih hA]

/-- The token taken by `strtok` from a string that starts with a component. -/
theorem strtok_component (A tail : List Nat) (hA : A ≠ []) (h47 : 47 ∉ A)
    (htail : ∀ c ∈ tail.head?, c = 47) :
    strtok (A ++ tail) = some (A ++ [0], tail.drop 1) := by
  cases A with
  | nil => exact absurd rfl hA
  | cons a A =>
    have ha : a ≠ 47 := fun h0 => h47 (by simp [h0])
    have h1 : (a :: A ++ tail).dropWhile (fun c => c == 47) = a :: A ++ tail := by
      simp [List.dropWhile_cons, ha]
    have h2 := takeWhile_component (a :: A) tail h47 htail
    have h3 := dropWhile_component (a :: A) tail h47 htail
    unfold strtok
    simp only [h1, h2, h3]
    simp

theorem strtok_nil : strtok [] = none := by
  simp [strtok]

theorem count_slash_of_not_mem (A : List Nat) (h : 47 ∉ A) : A.count 47 = 0 :=
  List.count_eq_zero_of_not_mem h

/-! ## The scan of the root directory -/

/-- The root loop visits `rootdir_entries` slots for every count a boot sector can
hold (a 16-bit field). -/
theorem root_slots_eq (volume : fat12volume) (h : volume.rootdir_entries < 134217728) :
    root_slots volume = volume.rootdir_entries := by
  unfold root_slots
  rw [Nat.mod_eq_of_lt (by omega)]
  omega

/-! ## The example image -/

set_option maxRecDepth 20000 in
theorem example_volume_loaded : open_volume_file example_image = .volume example_volume := by
  rfl

/-! ## Path resolution: the claims -/

set_option maxRecDepth 20000 in
/-- C3, the code at the failing input. Root slot 1 of the example volume is the file
`FILE.TXT` (directory flag 0); on `/FILE.TXT/X` the code reads its first cluster 5
as if it were a directory and returns -ENOENT, not -ENOTDIR. -/
theorem find_directory_entry_through_file :
    fill_directory_entry (root_slot example_volume 1) blank_entry
        = some { filename := [70, 73, 76, 69, 32, 32, 32, 32, 84, 88, 84, 0],
                 ctime := ⟨0, 0, 0, 80, 0, 0, -1⟩, size := 12, first_cluster := 5,
                 is_directory := 0 } ∧
      find_directory_entry 2 example_volume
        (47 :: [70, 73, 76, 69, 46, 84, 88, 84] ++ 47 :: [88]) blank_entry blank_entry
        = (.enoent, [5]) ∧
      Outcome.enoent.code = some (-2) ∧ Outcome.enotdir.code = some (-20) := by
  refine ⟨by decide, by decide, by decide, by decide⟩

set_option maxRecDepth 20000 in
/-- C5, the code at the failing input. The only cluster of `DIR2` in the example
volume is cluster 4, whose FAT entry is 0xFFF; on `/DIR2/X` the code does not stop
after cluster 4 but calls `read_cluster` on cluster 0xFFF = 4095 and then looks up
the FAT entry of cluster 4095, outside the loaded FAT. -/
theorem find_directory_entry_follows_fff :
    get_next_cluster example_volume 4 = some 0xFFF ∧
      find_directory_entry 3 example_volume (47 :: [68, 73, 82, 50] ++ 47 :: [88])
        blank_entry blank_entry = (.fault, [4, 4095]) := by
  refine ⟨by decide, by decide⟩

/-! ## Path resolution on an image laid out as its boot sector says -/

set_option maxRecDepth 20000 in
/-- C2 (code defect: `read_cluster` ignores `cluster_offset`). The image
`laid_out_image` is opened as `laid_out_volume`, whose boot sector puts cluster 2 in
sector `cluster_offset + 2` = 6.  Root slot 0 is the directory `SUBDIR` with first
cluster 2, the FAT entry of cluster 2 is the end-of-chain marker 0xFF8, and the
sector of cluster 2 holds one slot, the directory `INNER` with first cluster 7.  Yet
`find_directory_entry` on `/SUBDIR/INNER` returns `-ENOENT`: its one
`read_cluster(2)` loads sector 35.  Every slot of the image is a directory, so that
`add_period` is not called. -/
theorem find_directory_entry_in_subdirectory_enoent :
    open_volume_file laid_out_image = .volume laid_out_volume ∧
      slot_name (root_slot laid_out_volume 0) blank_entry = some [83, 85, 66, 68, 73, 82] ∧
      (fill_directory_entry (root_slot laid_out_volume 0) blank_entry).map
          (fun d => (d.is_directory, d.first_cluster)) = some (1, 2) ∧
      get_next_cluster laid_out_volume 2 = some 0xFF8 ∧
      laid_out_volume.cluster_offset + 2 * laid_out_volume.cluster_size = 6 ∧
      (∃ data,
        read_sectors laid_out_volume 6 laid_out_volume.cluster_size = some (32, some data) ∧
          slot_name data blank_entry = some [73, 78, 78, 69, 82] ∧
          (fill_directory_entry data blank_entry).map
            (fun d => (d.is_directory, d.first_cluster)) = some (1, 7)) ∧
      find_directory_entry 2 laid_out_volume
          [47, 83, 85, 66, 68, 73, 82, 47, 73, 78, 78, 69, 82, 0] blank_entry blank_entry
        = (.enoent, [2]) ∧
      read_cluster laid_out_volume 2 = read_sectors laid_out_volume 35 1 :=
  ⟨by rfl, by decide, by decide, by decide, by decide,
   ⟨example_slot [73, 78, 78, 69, 82, 32, 32, 32, 32, 32, 32] 0x10 7 0, by decide, by decide,
     by decide⟩,
   by decide, by decide⟩

set_option maxRecDepth 20000 in
/-- C4 (code defect: `read_cluster` ignores `cluster_offset`). On `laid_out_volume`
the chain of the root directory `SUBDIR` is the single cluster 2, whose FAT entry is
exactly 0xFF8, and the sector of cluster 2 (sector `cluster_offset + 2` = 6, one
slot) holds the directory `INNER` and no slot named `DEEP`.  Yet
`find_directory_entry` on `/SUBDIR/DEEP` returns 0, with the entry of the slot `DEEP`
of sector 35, which is the sector of cluster 31, the cluster of the other root
directory `OTHER`.  Every slot of the image is a directory, so that `add_period` is
not called. -/
theorem find_directory_entry_missing_found :
    open_volume_file laid_out_image = .volume laid_out_volume ∧
      slot_name (root_slot laid_out_volume 0) blank_entry = some [83, 85, 66, 68, 73, 82] ∧
      (fill_directory_entry (root_slot laid_out_volume 0) blank_entry).map
          (fun d => (d.is_directory, d.first_cluster)) = some (1, 2) ∧
      get_next_cluster laid_out_volume 2 = some 0xFF8 ∧
      laid_out_volume.cluster_offset + 2 * laid_out_volume.cluster_size = 6 ∧
      cluster_slots laid_out_volume = 1 ∧
      (∃ data,
        read_sectors laid_out_volume 6 laid_out_volume.cluster_size = some (32, some data) ∧
          slot_name data blank_entry = some [73, 78, 78, 69, 82]) ∧
      (∃ e,
        find_directory_entry 2 laid_out_volume
            [47, 83, 85, 66, 68, 73, 82, 47, 68, 69, 69, 80, 0] blank_entry blank_entry
          = (.ret0 e, [2]) ∧
          cstr e.filename = [68, 69, 69, 80] ∧ e.first_cluster = 9 ∧ e.is_directory = 1) ∧
      slot_name (root_slot laid_out_volume 1) blank_entry = some [79, 84, 72, 69, 82] ∧
      (fill_directory_entry (root_slot laid_out_volume 1) blank_entry).map
          (fun d => (d.is_directory, d.first_cluster)) = some (1, 31) ∧
      laid_out_volume.cluster_offset + 31 * laid_out_volume.cluster_size = 35 ∧
      (∃ data,
        read_sectors laid_out_volume 35 laid_out_volume.cluster_size = some (32, some data) ∧
          slot_name data blank_entry = some [68, 69, 69, 80] ∧
          (fill_directory_entry data blank_entry).map
            (fun d => (d.is_directory, d.first_cluster)) = some (1, 9)) :=
  ⟨by rfl, by decide, by decide, by decide, by decide, by decide,
   ⟨example_slot [73, 78, 78, 69, 82, 32, 32, 32, 32, 32, 32] 0x10 7 0, by decide, by decide⟩,
   ⟨{ filename := [68, 69, 69, 80, 0, 32, 32, 32, 32, 32, 32, 0]
      ctime := ⟨0, 0, 0, 80, 0, 0, -1⟩
      size := 0
      first_cluster := 9
      is_directory := 1 }, by decide, by decide, by decide, by decide⟩,
   by decide, by decide, by decide,
   ⟨example_slot [68, 69, 69, 80, 32, 32, 32, 32, 32, 32, 32] 0x10 9 0, by decide, by decide,
     by decide⟩⟩

/-! ## The FAT -/

theorem getElem?_lt_length (l : List Nat) (i v : Nat) (h : l[i]? = some v) : i < l.length := by
  by_contra hc
  rw [List.getElem?_eq_none (by omega)] at h
  exact Option.noConfusion h

/-- C6. For an even cluster number `c` and 12-bit values `a`, `b`: when the three FAT
bytes at `3c/2` are `a mod 256`, `a div 256 + 16 * (b mod 16)`, `b div 16`,
`get_next_cluster` returns `a` for `c` and `b` for `c + 1` (the FAT holds fewer than
`2 ^ 31` bytes, as every FAT that `read_sectors` can load). -/
theorem get_next_cluster_roundtrip (volume : fat12volume) (c a b : Nat)
    (hc : c % 2 = 0) (ha : a < 4096) (hb : b < 4096)
    (hlen : volume.fat_array.length < 2147483648)
    (h0 : volume.fat_array[3 * c / 2]? = some (a % 256))
    (h1 : volume.fat_array[3 * c / 2 + 1]? = some (a / 256 + 16 * (b % 16)))
    (h2 : volume.fat_array[3 * c / 2 + 2]? = some (b / 16)) :
    get_next_cluster volume c = some a ∧ get_next_cluster volume (c + 1) = some b := by
  have hpos := getElem?_lt_length _ _ _ h0
  have hp1 : (c * 3) % 4294967296 / 2 = 3 * c / 2 := by
    rw [Nat.mod_eq_of_lt (by omega), Nat.mul_comm]
  have hp2 : ((c + 1 - 1) * 3) % 4294967296 / 2 = 3 * c / 2 := by
    rw [Nat.add_sub_cancel]; exact hp1
  have hodd : ¬ (c + 1) % 2 = 0 := by omega
  have hread := read_unsigned_le_three volume.fat_array (3 * c / 2) _ _ _ h0 h1 h2
  constructor
  · simp only [get_next_cluster, hc, if_true, hp1, hread]
    congr 1
    omega
  · simp only [get_next_cluster, hodd, if_false, hp2, hread]
    congr 1
    omega

/-- Witness of C6: clusters 2 and 3 of the example volume share the FAT bytes 3 to 5,
`0x03 0x80 0xFF`, which pack `a = 3` and `b = 0xFF8`. -/
theorem get_next_cluster_roundtrip_witness :
    get_next_cluster example_volume 2 = some 3 ∧ get_next_cluster example_volume 3 = some 0xFF8 :=
  get_next_cluster_roundtrip example_volume 2 3 0xFF8 (by decide) (by decide) (by decide)
    (by decide) (by decide) (by decide) (by decide)

/-- C7, counterexample to the claim as stated. The FAT of the example volume holds 32
bytes; the window of cluster 20 is bytes 30 to 32, not inside it, and
`get_next_cluster` does read outside the FAT there: it has no bounds check and no
error result. -/
theorem get_next_cluster_unchecked :
    example_volume.fat_array.length = 32 ∧ ¬ entry_window_inside example_volume 20 ∧
      reads_outside_fat example_volume 20 := by
  refine ⟨by decide, by decide, by decide⟩

/-- C7, as amended. `get_next_cluster` makes no bounds check: for a cluster number
(with `3 * cluster` below `2 ^ 32`) whose 3-byte window lies inside the loaded FAT it
returns a 12-bit value and never fails; for one whose window does not lie inside the
FAT it reads outside the buffer. -/
theorem get_next_cluster_window (volume : fat12volume) (cluster : Nat)
    (hc : cluster * 3 < 4294967296) :
    (entry_window_inside volume cluster →
        ∃ v, get_next_cluster volume cluster = some v ∧ v < 4096) ∧
      (¬ entry_window_inside volume cluster → reads_outside_fat volume cluster) := by
  have hpos : (if cluster % 2 = 0 then (cluster * 3) % 4294967296 / 2
      else ((cluster - 1) * 3) % 4294967296 / 2) = 3 * (cluster / 2) := by
    split
    · rw [Nat.mod_eq_of_lt hc]; omega
    · rw [Nat.mod_eq_of_lt (by omega)]; omega
  unfold entry_window_inside reads_outside_fat
  constructor
  · intro hin
    have e0 := List.getElem?_eq_getElem (l := volume.fat_array) (n := 3 * (cluster / 2))
      (by omega)
    have e1 := List.getElem?_eq_getElem (l := volume.fat_array) (n := 3 * (cluster / 2) + 1)
      (by omega)
    have e2 := List.getElem?_eq_getElem (l := volume.fat_array) (n := 3 * (cluster / 2) + 2)
      (by omega)
    have hread := read_unsigned_le_three volume.fat_array (3 * (cluster / 2)) _ _ _ e0 e1 e2
    simp only [get_next_cluster, hpos, hread]
    refine ⟨_, rfl, ?_⟩
    split <;> omega
  · intro hout
    have hread := read_unsigned_le_eq_none volume.fat_array (3 * (cluster / 2)) 3 (by omega)
      (by omega)
    simp only [get_next_cluster, hpos, hread]

/-- Witness of C7 as amended: clusters 4 and 20 of the example volume. -/
theorem get_next_cluster_window_witness :
    (∃ v, get_next_cluster example_volume 4 = some v ∧ v < 4096) ∧
      reads_outside_fat example_volume 20 :=
  ⟨(get_next_cluster_window example_volume 4 (by decide)).1 (by decide),
   (get_next_cluster_window example_volume 20 (by decide)).2 (by decide)⟩

/-! ## Volume geometry -/

theorem read_unsigned_le_loop_bound (buffer : List Nat) (position : Nat) :
    ∀ (n number v : Nat), read_unsigned_le_loop buffer position n number = some v →
      v < (number + 1) * 256 ^ n := by
  intro n
  induction n with
  | zero =>
    intro number v h
    simp only [read_unsigned_le_loop, Option.some.injEq] at h
    omega
  | succ n ih =>
    intro number v h
    unfold read_unsigned_le_loop at h
    cases hb : buffer[n + position]? with
    | none => simp [hb] at h
    | some b =>
      simp only [hb, shl_or_byte] at h
      have h1 := ih _ v h
      have h2 : number * 256 + b % 256 + 1 ≤ (number + 1) * 256 := by omega
      calc v < (number * 256 + b % 256 + 1) * 256 ^ n := h1
        _ ≤ ((number + 1) * 256) * 256 ^ n := Nat.mul_le_mul_right _ h2
        _ = (number + 1) * 256 ^ (n + 1) := by ring

theorem read_unsigned_le_bound (buffer : List Nat) (position n v : Nat)
    (h : read_unsigned_le buffer position n = some v) : v < 256 ^ n := by
  unfold read_unsigned_le at h
  cases hl : read_unsigned_le_loop buffer position n 0 with
  | none => simp [hl] at h
  | some w =>
    simp only [hl, Option.some.injEq] at h
    have := read_unsigned_le_loop_bound buffer position n 0 w hl
    have hle : w % 4294967296 ≤ w := Nat.mod_le _ _
    omega

/-- The fields of a volume returned by `open_volume_file`, in terms of the values
read from the boot sector. -/
theorem open_volume_file_fields (file : List Nat) (v : fat12volume)
    (h : open_volume_file file = .volume v) :
    ∃ sector_size cluster_size reserved_sectors fat_num_sectors fat_copies rootdir_entries,
      read_unsigned_le file 11 2 = some sector_size ∧
      read_unsigned_le file 13 1 = some cluster_size ∧
      read_unsigned_le file 14 2 = some reserved_sectors ∧
      read_unsigned_le file 22 2 = some fat_num_sectors ∧
      read_unsigned_le file 16 1 = some fat_copies ∧
      read_unsigned_le file 17 2 = some rootdir_entries ∧
      sector_size ≠ 0 ∧
      v.sector_size = sector_size ∧ v.cluster_size = cluster_size ∧
      v.reserved_sectors = reserved_sectors ∧ v.fat_offset = reserved_sectors ∧
      v.fat_num_sectors = fat_num_sectors ∧ v.fat_copies = fat_copies ∧
      v.rootdir_entries = rootdir_entries ∧
      v.rootdir_offset
        = (reserved_sectors + (fat_num_sectors * fat_copies) % 4294967296) % 4294967296 ∧
      v.rootdir_num_sectors = (rootdir_entries * 32) % 4294967296 / sector_size ∧
      v.cluster_offset
        = (v.rootdir_offset + v.rootdir_num_sectors + 4294967296
            - (2 * cluster_size) % 4294967296) % 4294967296 := by
  unfold open_volume_file at h
  simp only at h
  split at h
  · exact OpenResult.noConfusion h
  · split at h
    · rename_i ss cs rs hs fs fc h1 h2 h3 h4 h5 h6
      split at h
      · exact OpenResult.noConfusion h
      · exact OpenResult.noConfusion h
      · split at h
        · exact OpenResult.noConfusion h
        · split at h
          · exact OpenResult.noConfusion h
          · rename_i re h7
            split at h
            · exact OpenResult.noConfusion h
            · rename_i hss
              split at h
              · exact OpenResult.noConfusion h
              · exact OpenResult.noConfusion h
              · split at h
                · exact OpenResult.noConfusion h
                · simp only [OpenResult.volume.injEq] at h
                  subst h
                  exact ⟨ss, cs, rs, fs, fc, re, h1, h2, h3, h5, h6, h7, hss, rfl, rfl, rfl,
                    rfl, rfl, rfl, rfl, rfl, rfl, rfl⟩
    · exact OpenResult.noConfusion h

/-- C9. On every file on which `open_volume_file` succeeds: `fat_offset` is
`reserved_sectors`, `rootdir_offset` is `fat_offset + fat_num_sectors * fat_copies`,
`cluster_offset` is `rootdir_offset + rootdir_num_sectors - 2 * cluster_size` in
32-bit unsigned arithmetic, and `cluster_offset + 2 * cluster_size` (the sector of
cluster 2), in the same arithmetic, is `rootdir_offset + rootdir_num_sectors`, the
first sector behind the root directory region. -/
theorem open_volume_file_geometry (file : List Nat) (v : fat12volume)
    (h : open_volume_file file = .volume v) :
    v.fat_offset = v.reserved_sectors ∧
      v.rootdir_offset = v.fat_offset + v.fat_num_sectors * v.fat_copies ∧
      v.cluster_offset
        = (v.rootdir_offset + v.rootdir_num_sectors + 4294967296 - 2 * v.cluster_size)
            % 4294967296 ∧
      (v.cluster_offset + 2 * v.cluster_size) % 4294967296
        = v.rootdir_offset + v.rootdir_num_sectors := by
  obtain ⟨ss, cs, rs, fs, fc, re, h1, h2, h3, h5, h6, h7, hss, e1, e2, e3, e4, e5, e6, e7, e8,
    e9, e10⟩ := open_volume_file_fields file v h
  have b2 := read_unsigned_le_bound _ _ _ _ h2
  have b3 := read_unsigned_le_bound _ _ _ _ h3
  have b5 := read_unsigned_le_bound _ _ _ _ h5
  have b6 := read_unsigned_le_bound _ _ _ _ h6
  have b7 := read_unsigned_le_bound _ _ _ _ h7
  norm_num at b2 b3 b5 b6 b7
  have hprod : fs * fc ≤ 65535 * 255 := Nat.mul_le_mul (by omega) (by omega)
  have hroot : v.rootdir_offset = rs + fs * fc := by
    rw [e8, Nat.mod_eq_of_lt (a := fs * fc) (by omega), Nat.mod_eq_of_lt (by omega)]
  have hnum : v.rootdir_num_sectors ≤ 2097120 := by
    rw [e9, Nat.mod_eq_of_lt (by omega)]
    calc re * 32 / ss ≤ re * 32 := Nat.div_le_self _ _
      _ ≤ 2097120 := by omega
  have hcs : (2 * cs) % 4294967296 = 2 * cs := Nat.mod_eq_of_lt (by omega)
  rw [hcs] at e10
  refine ⟨by rw [e4, e3], by rw [hroot, e4, e5, e6], by rw [e10, e2], ?_⟩
  rw [e10, e2]
  omega

/-- Witness of C9: the example image, whose root directory region ends before
sector 5 and whose `cluster_offset` is 3. -/
theorem open_volume_file_geometry_witness :
    example_volume.fat_offset = example_volume.reserved_sectors ∧
      example_volume.rootdir_offset
        = example_volume.fat_offset + example_volume.fat_num_sectors * example_volume.fat_copies ∧
      example_volume.cluster_offset
        = (example_volume.rootdir_offset + example_volume.rootdir_num_sectors + 4294967296
            - 2 * example_volume.cluster_size) % 4294967296 ∧
      (example_volume.cluster_offset + 2 * example_volume.cluster_size) % 4294967296
        = example_volume.rootdir_offset + example_volume.rootdir_num_sectors :=
  open_volume_file_geometry example_image example_volume example_volume_loaded

/-- The function `read_cluster` starts at the sector `cluster * cluster_size + 33`, whatever the
volume's `cluster_offset` is. -/
theorem read_cluster_first_sector (volume : fat12volume) (cluster : Nat) :
    read_cluster volume cluster
      = read_sectors volume ((cluster * volume.cluster_size + 33) % 4294967296)
          volume.cluster_size := rfl

set_option maxRecDepth 20000 in
/-- C8, the code at the failing input. The example volume is the one loaded from the
example image, with `cluster_offset = 3` and `cluster_size = 1`; the claim places
cluster 2 at sector `3 + 2 * 1 = 5`, but `read_cluster` reads sector
`2 * 1 + 33 = 35`, whose bytes differ from those of sector 5. -/
theorem read_cluster_ignores_cluster_offset :
    open_volume_file example_image = .volume example_volume ∧
      example_volume.cluster_offset + 2 * example_volume.cluster_size = 5 ∧
      read_cluster example_volume 2 = read_sectors example_volume 35 1 ∧
      read_sectors example_volume 35 1
        = some (32, some (example_slot [66, 32, 32, 32, 32, 32, 32, 32, 84, 88, 84] 0x20 7 5)) ∧
      read_sectors example_volume 5 1 = some (32, some (List.replicate 32 0)) := by
  refine ⟨example_volume_loaded, by decide, rfl, by decide, by decide⟩

set_option maxRecDepth 20000 in
/-- C10, the code at the failing input. The boot sector of the truncated image (65
bytes) places the root directory region in sectors 2 to 4, bytes 64 to 159; only one
of these bytes exists, yet `open_volume_file` returns a volume, with a one-byte
`rootdir_array`. -/
theorem open_volume_file_accepts_short_root :
    truncated_image.length = 65 ∧
      ∃ v, open_volume_file truncated_image = .volume v ∧
        (v.rootdir_offset + v.rootdir_num_sectors) * v.sector_size = 160 ∧
        v.rootdir_entries = 3 ∧ v.rootdir_array = [83] := by
  refine ⟨by decide, { example_volume with
    volume_file := truncated_image, rootdir_array := [83] }, by rfl, by decide, by decide,
    by decide⟩

/-- The function `open_volume_file` returns NULL on an empty file. -/
theorem open_volume_file_empty : open_volume_file [] = .null := rfl

/-! ## Little-endian reads in closed form -/

theorem getElem?_eq_getD (l : List Nat) (i : Nat) (h : i < l.length) :
    l[i]? = some (l.getD i 0) := by
  rw [List.getElem?_eq_getElem h, List.getD_eq_getElem l 0 h]

theorem read_unsigned_le_one (buffer : List Nat) (p : Nat) (h : p + 1 ≤ buffer.length) :
    read_unsigned_le buffer p 1 = some (byte_at buffer p) := by
  have e0 : buffer[0 + p]? = some (buffer.getD p 0) := by
    rw [Nat.zero_add]; exact getElem?_eq_getD buffer p (by omega)
  simp only [read_unsigned_le, read_unsigned_le_loop, e0, shl_or_byte, byte_at]
  congr 1
  omega

theorem read_unsigned_le_two (buffer : List Nat) (p : Nat) (h : p + 2 ≤ buffer.length) :
    read_unsigned_le buffer p 2 = some (le16 buffer p) := by
  have e0 : buffer[0 + p]? = some (buffer.getD p 0) := by
    rw [Nat.zero_add]; exact getElem?_eq_getD buffer p (by omega)
  have e1 : buffer[1 + p]? = some (buffer.getD (p + 1) 0) := by
    rw [Nat.add_comm]; exact getElem?_eq_getD buffer (p + 1) (by omega)
  simp only [read_unsigned_le, read_unsigned_le_loop, e0, e1, shl_or_byte, le16, byte_at]
  congr 1
  omega

theorem read_unsigned_le_four (buffer : List Nat) (p : Nat) (h : p + 4 ≤ buffer.length) :
    read_unsigned_le buffer p 4 = some (le32 buffer p) := by
  have e0 : buffer[0 + p]? = some (buffer.getD p 0) := by
    rw [Nat.zero_add]; exact getElem?_eq_getD buffer p (by omega)
  have e1 : buffer[1 + p]? = some (buffer.getD (p + 1) 0) := by
    rw [Nat.add_comm]; exact getElem?_eq_getD buffer (p + 1) (by omega)
  have e2 : buffer[2 + p]? = some (buffer.getD (p + 2) 0) := by
    rw [Nat.add_comm]; exact getElem?_eq_getD buffer (p + 2) (by omega)
  have e3 : buffer[3 + p]? = some (buffer.getD (p + 3) 0) := by
    rw [Nat.add_comm]; exact getElem?_eq_getD buffer (p + 3) (by omega)
  simp only [read_unsigned_le, read_unsigned_le_loop, e0, e1, e2, e3, shl_or_byte, le32, byte_at]
  congr 1
  omega

theorem byte_at_lt (buffer : List Nat) (i : Nat) : byte_at buffer i < 256 :=
  Nat.mod_lt _ (by norm_num)

theorem le16_lt (buffer : List Nat) (p : Nat) : le16 buffer p < 65536 := by
  have h0 := byte_at_lt buffer p
  have h1 := byte_at_lt buffer (p + 1)
  unfold le16
  omega

/-! ## Reading sectors -/

set_option maxRecDepth 20000 in
theorem directory_bit (b : Nat) (hb : b < 256) : (b &&& 0x10 = 0) ↔ (b / 16 % 2 = 0) := by
  revert b
  decide

/-- The fields that `fill_directory_entry` decodes, in closed form. -/
theorem fill_directory_entry_closed_form (data : List Nat) (entry : dir_entry)
    (h : 32 ≤ data.length) :
    ∃ d, fill_directory_entry data entry = some d ∧
      (d.is_directory = 1 ↔ byte_at data 11 / 16 % 2 = 1) ∧
      (d.is_directory = 0 ↔ byte_at data 11 / 16 % 2 = 0) ∧
      d.first_cluster = le16 data 26 ∧ d.size = le32 data 28 := by
  have h1 := read_unsigned_le_two data 24 (by omega)
  have h2 := read_unsigned_le_two data 22 (by omega)
  have h3 := read_unsigned_le_one data 11 (by omega)
  have h4 := read_unsigned_le_four data 28 (by omega)
  have h5 := read_unsigned_le_two data 26 (by omega)
  have hbit := directory_bit (byte_at data 11) (byte_at_lt data 11)
  simp only [fill_directory_entry, h1, h2, h3, h4, h5]
  refine ⟨_, rfl, ?_, ?_, rfl, rfl⟩
  · by_cases hb : byte_at data 11 &&& 0x10 = 0
    · have := hbit.mp hb
      simp only [hb, if_true]
      constructor <;> intro h0 <;> first | trivial | omega
    · have : ¬ byte_at data 11 / 16 % 2 = 0 := fun h0 => hb (hbit.mpr h0)
      simp only [hb, if_false]
      constructor <;> intro h0 <;> first | trivial | omega
  · by_cases hb : byte_at data 11 &&& 0x10 = 0
    · have := hbit.mp hb
      simp only [hb, if_true]
      constructor <;> intro h0 <;> trivial
    · have : ¬ byte_at data 11 / 16 % 2 = 0 := fun h0 => hb (hbit.mpr h0)
      simp only [hb, if_false]
      constructor <;> intro h0 <;> trivial

/-- C12. For every slot of 32 bytes, `fill_directory_entry` sets `is_directory` to 1
exactly when bit 0x10 of the attribute byte at offset 11 is set and to 0 otherwise,
whatever the other bits and bytes are, `first_cluster` to the little-endian 16-bit
value at offset 26 and `size` to the little-endian 32-bit value at offset 28. -/
theorem fill_directory_entry_decodes (data : List Nat) (entry : dir_entry)
    (h : 32 ≤ data.length) :
    ∃ d, fill_directory_entry data entry = some d ∧
      (d.is_directory = 1 ↔ byte_at data 11 / 16 % 2 = 1) ∧
      (d.is_directory = 0 ↔ byte_at data 11 / 16 % 2 = 0) ∧
      d.first_cluster = le16 data 26 ∧ d.size = le32 data 28 :=
  fill_directory_entry_closed_form data entry h

/-- Witness of C12: root slot 0 of the example volume, the directory `SUBDIR` with
attribute 0x10 and first cluster 2. -/
theorem fill_directory_entry_decodes_witness :
    ∃ d, fill_directory_entry (root_slot example_volume 0) blank_entry = some d ∧
      (d.is_directory = 1 ↔ byte_at (root_slot example_volume 0) 11 / 16 % 2 = 1) ∧
      (d.is_directory = 0 ↔ byte_at (root_slot example_volume 0) 11 / 16 % 2 = 0) ∧
      d.first_cluster = le16 (root_slot example_volume 0) 26 ∧
      d.size = le32 (root_slot example_volume 0) 28 :=
  fill_directory_entry_decodes (root_slot example_volume 0) blank_entry (by decide)

theorem mask_five (x : Nat) : ((1 <<< 5) - 1) &&& x = x % 32 := by
  show 31 &&& x = x % 32
  rw [Nat.and_comm]
  exact Nat.and_pow_two_sub_one_eq_mod x 5

theorem mask_six (x : Nat) : ((1 <<< 6) - 1) &&& x = x % 64 := by
  show 63 &&& x = x % 64
  rw [Nat.and_comm]
  exact Nat.and_pow_two_sub_one_eq_mod x 6

theorem mask_seven (x : Nat) : 0x7f &&& x = x % 128 := by
  rw [Nat.and_comm]
  exact Nat.and_pow_two_sub_one_eq_mod x 7

theorem mask_four (x : Nat) : 0x0f &&& x = x % 16 := by
  rw [Nat.and_comm]
  exact Nat.and_pow_two_sub_one_eq_mod x 4

/-- C13. For every slot of 32 bytes, with `t` the little-endian 16-bit value at
offset 22 and `d` the one at offset 24, `fill_directory_entry` yields hour = bits
15..11 of `t`, minute = bits 10..5 of `t`, second = 2 * (bits 4..0 of `t`), month =
bits 8..5 of `d`, day = bits 4..0 of `d` and year = (bits 15..9 of `d`) + 80, so that
year + 1900 = 1980 + the FAT year offset. -/
theorem fill_directory_entry_ctime (data : List Nat) (entry : dir_entry)
    (h : 32 ≤ data.length) :
    ∃ e, fill_directory_entry data entry = some e ∧
      e.ctime.tm_hour = le16 data 22 / 2048 % 32 ∧
      e.ctime.tm_min = le16 data 22 / 32 % 64 ∧
      e.ctime.tm_sec = 2 * (le16 data 22 % 32) ∧
      e.ctime.tm_mon = le16 data 24 / 32 % 16 ∧
      e.ctime.tm_mday = le16 data 24 % 32 ∧
      e.ctime.tm_year = le16 data 24 / 512 % 128 + 80 ∧
      e.ctime.tm_year + 1900 = 1980 + le16 data 24 / 512 % 128 := by
  have h1 := read_unsigned_le_two data 24 (by omega)
  have h2 := read_unsigned_le_two data 22 (by omega)
  have h3 := read_unsigned_le_one data 11 (by omega)
  have h4 := read_unsigned_le_four data 28 (by omega)
  have h5 := read_unsigned_le_two data 26 (by omega)
  simp only [fill_directory_entry, h1, h2, h3, h4, h5]
  refine ⟨_, rfl, ?_, ?_, ?_, ?_, ?_, ?_, ?_⟩
  · simp only [mask_five, Nat.shiftRight_eq_div_pow]
  · simp only [mask_six, Nat.shiftRight_eq_div_pow]
  · simp only [mask_five]
  · simp only [mask_four, Nat.shiftRight_eq_div_pow]
  · simp only [mask_five]
  · simp only [mask_seven, Nat.shiftRight_eq_div_pow]
  · simp only [mask_seven, Nat.shiftRight_eq_div_pow]
    omega

/-- Witness of C13: a slot with time 13:37:42 (`0x6CB5`) and date 2017-03-15
(`0x4A6F`). -/
theorem fill_directory_entry_ctime_witness :
    ∃ e, fill_directory_entry
        ([65, 32, 32, 32, 32, 32, 32, 32, 84, 88, 84, 0x20] ++ List.replicate 10 0
          ++ [0xB5, 0x6C, 0x6F, 0x4A, 9, 0, 77, 0, 0, 0]) blank_entry = some e ∧
      e.ctime.tm_hour = 13 ∧ e.ctime.tm_min = 37 ∧ e.ctime.tm_sec = 42 ∧
      e.ctime.tm_mon = 3 ∧ e.ctime.tm_mday = 15 ∧ e.ctime.tm_year = 117 ∧
      e.ctime.tm_year + 1900 = 2017 := by
  obtain ⟨e, he, h1, h2, h3, h4, h5, h6, h7⟩ :=
    fill_directory_entry_ctime
      ([65, 32, 32, 32, 32, 32, 32, 32, 84, 88, 84, 0x20] ++ List.replicate 10 0
        ++ [0xB5, 0x6C, 0x6F, 0x4A, 9, 0, 77, 0, 0, 0]) blank_entry (by decide)
  have ht : le16 ([65, 32, 32, 32, 32, 32, 32, 32, 84, 88, 84, 0x20] ++ List.replicate 10 0
      ++ [0xB5, 0x6C, 0x6F, 0x4A, 9, 0, 77, 0, 0, 0]) 22 = 27829 := by decide
  have hd : le16 ([65, 32, 32, 32, 32, 32, 32, 32, 84, 88, 84, 0x20] ++ List.replicate 10 0
      ++ [0xB5, 0x6C, 0x6F, 0x4A, 9, 0, 77, 0, 0, 0]) 24 = 19055 := by decide
  rw [ht] at h1 h2 h3
  rw [hd] at h4 h5 h6 h7
  exact ⟨e, he, h1, h2, h3, h4, h5, h6, by omega⟩

/-! ## Decoding a slot: the name -/

theorem fill_directory_entry_filename (data : List Nat) (entry d : dir_entry)
    (h : fill_directory_entry data entry = some d) :
    d.filename = strcpy entry.filename (data.take 11 ++ [0]) := by
  unfold fill_directory_entry at h
  split at h
  · simp only [Option.some.injEq] at h
    rw [← h]
  · exact Option.noConfusion h

/-! ## The unwritten byte of `buffer` and the overflow of `strC` -/

theorem cstr_append_of_no_zero (s rest : List Nat) (h : 0 ∉ s) :
    cstr (s ++ rest) = s ++ cstr rest := by
  induction s with
  | nil => rfl
  | cons a s ih =>
    have ha : a ≠ 0 := fun h0 => h (by simp [h0])
    have hs : 0 ∉ s := fun h0 => h (by simp [h0])
    have := ih hs
    simp only [cstr] at this ⊢
    simp [List.takeWhile_cons, ha, this]

theorem cstr_drop (n : Nat) : ∀ s : List Nat, n ≤ (cstr s).length →
    cstr (s.drop n) = (cstr s).drop n := by
  induction n with
  | zero => intro s _; rfl
  | succ n ih =>
    intro s h
    cases s with
    | nil => simp [cstr] at h
    | cons a s =>
      by_cases ha : a = 0
      · simp [cstr, ha] at h
      · have hc : cstr (a :: s) = a :: cstr s := by
          simp [cstr, List.takeWhile_cons, ha]
        rw [hc] at h ⊢
        simp only [List.length_cons] at h
        simp only [List.drop_succ_cons]
        exact ih s (by omega)

/-- The string read out of `buffer` for a slot with no NUL among its name bytes goes
on behind the 11 bytes written, into the bytes that nothing has written. -/
theorem buffer_string_unwritten (data unwritten : List Nat) (h0 : 0 ∉ data.take 11) :
    buffer_string data unwritten = data.take 11 ++ cstr unwritten :=
  cstr_append_of_no_zero _ _ h0

/-- The function `add_period`, called on a string of at least 8 characters, writes
the string, the period and the terminator into `strC`. -/
theorem strC_bytes_written_eq (source : List Nat) (h : 8 ≤ (cstr source).length) :
    strC_bytes_written source = (cstr source).length + 2 := by
  unfold strC_bytes_written
  rw [cstr_drop 8 source h]
  simp only [List.length_append, List.length_take, List.length_drop, List.length_singleton]
  omega

/-- The definition `fill_directory_entry` follows the execution in which the byte
`buffer[11]` holds NUL. -/
theorem fill_directory_entry_unwritten (data : List Nat) (entry d : dir_entry)
    (h : fill_directory_entry data entry = some d) :
    d.filename = strcpy entry.filename (buffer_string data [0]) := by
  rw [fill_directory_entry_filename data entry d h]
  unfold strcpy buffer_string
  rw [cstr_of_no_zero _ (zero_not_mem_cstr _)]

theorem name_overflow (data unwritten filename : List Nat)
    (hlen : 11 ≤ data.length) (h0 : 0 ∉ data.take 11) :
    strC_bytes_written (strcpy filename (buffer_string data unwritten))
      = 13 + (cstr unwritten).length := by
  have hb := buffer_string_unwritten data unwritten h0
  have hl : (data.take 11).length = 11 := by
    rw [List.length_take]; omega
  have hc : cstr (strcpy filename (buffer_string data unwritten))
      = data.take 11 ++ cstr unwritten := by
    rw [cstr_strcpy, hb]
    apply cstr_of_no_zero
    intro hm
    rcases List.mem_append.mp hm with hm | hm
    · exact h0 hm
    · exact zero_not_mem_cstr _ hm
  rw [strC_bytes_written_eq _ (by rw [hc, List.length_append, hl]; omega), hc,
    List.length_append, hl]
  omega

/-- C14 (code defect). For every slot whose 11 name bytes contain no NUL and
whatever the memory holds from `buffer[11]` on (`unwritten`): the string that
`fill_directory_entry` copies into the entry is the 11 name bytes followed by the
characters of `unwritten`, so the byte `buffer[11]`, which nothing has written, is
read; the normalized name of a directory slot (`remove_spaces` alone) is the name
bytes without their spaces followed by the characters of `unwritten` other than
spaces; and for a slot that is not a directory `add_period` writes at least 13 bytes
into its `strC`, an array of 11.  The name that the claim gives is the one of the
executions in which `buffer[11]` holds NUL and the write behind `strC` does no
harm. -/
theorem add_period_overflows_strC (data unwritten filename : List Nat)
    (hlen : 11 ≤ data.length) (h0 : 0 ∉ data.take 11) :
    buffer_string data unwritten = data.take 11 ++ cstr unwritten ∧
      cstr (remove_spaces (strcpy filename (buffer_string data unwritten)))
        = (data.take 11).filter (fun c => c != 32)
            ++ (cstr unwritten).filter (fun c => c != 32) ∧
      strC_bytes_written (strcpy filename (buffer_string data unwritten))
        = 13 + (cstr unwritten).length := by
  refine ⟨buffer_string_unwritten data unwritten h0, ?_,
    name_overflow data unwritten filename hlen h0⟩
  rw [cstr_remove_spaces, cstr_strcpy, buffer_string_unwritten data unwritten h0]
  have hz : 0 ∉ data.take 11 ++ cstr unwritten := by
    intro hm
    rcases List.mem_append.mp hm with hm | hm
    · exact h0 hm
    · exact zero_not_mem_cstr _ hm
  rw [cstr_of_no_zero _ hz, List.filter_append]

/-- Witness of C14: with `'A'` in `buffer[11]` and NUL in `buffer[12]` the directory
slot `SUBDIR` is given the name `SUBDIRA`; and with NUL in `buffer[11]` the scan of
the slot `A.TXT` writes 13 bytes into `strC`. -/
theorem add_period_overflows_strC_witness :
    cstr (remove_spaces (strcpy []
          (buffer_string (example_slot [83, 85, 66, 68, 73, 82, 32, 32, 32, 32, 32] 0x10 2 0)
            [65, 0])))
        = ((example_slot [83, 85, 66, 68, 73, 82, 32, 32, 32, 32, 32] 0x10 2 0).take 11).filter
              (fun c => c != 32)
            ++ (cstr [65, 0]).filter (fun c => c != 32) ∧
      strC_bytes_written (strcpy []
          (buffer_string (example_slot [65, 32, 32, 32, 32, 32, 32, 32, 84, 88, 84] 0x20 9 77)
            [0]))
        = 13 + (cstr [0]).length :=
  ⟨(add_period_overflows_strC (example_slot [83, 85, 66, 68, 73, 82, 32, 32, 32, 32, 32] 0x10 2 0)
      [65, 0] [] (by decide) (by decide)).2.1,
   (add_period_overflows_strC (example_slot [65, 32, 32, 32, 32, 32, 32, 32, 84, 88, 84] 0x20 9 77)
      [0] [] (by decide) (by decide)).2.2⟩

set_option maxRecDepth 20000 in
/-- C1 (code defect). On the example of the claim, the root entry
`FILE.TXT` with size 12 and first cluster 5 (root slot 1 of the example volume, name
field `FILE    TXT`) and the path `/FILE.TXT`: whatever the memory holds from
`buffer[11]` on, the scan of this slot makes `add_period` write at least 13 bytes
into its `strC`, an array of 11; and the scan of root slot 0 before it, the
directory `SUBDIR`, reads the byte `buffer[11]`, which nothing has written, and
names the slot `SUBDIRA` when that byte holds `'A'`. -/
theorem find_directory_entry_root_undefined :
    (root_slot example_volume 1).take 11 = [70, 73, 76, 69, 32, 32, 32, 32, 84, 88, 84] ∧
      (fill_directory_entry (root_slot example_volume 1) blank_entry).map
          (fun d => (d.size, d.first_cluster, d.is_directory)) = some (12, 5, 0) ∧
      (∀ unwritten filename : List Nat,
        strC_bytes_written (strcpy filename (buffer_string (root_slot example_volume 1) unwritten))
          = 13 + (cstr unwritten).length) ∧
      (fill_directory_entry (root_slot example_volume 0) blank_entry).map
          (fun d => d.is_directory) = some 1 ∧
      (∀ unwritten : List Nat,
        buffer_string (root_slot example_volume 0) unwritten
          = [83, 85, 66, 68, 73, 82, 32, 32, 32, 32, 32] ++ cstr unwritten) ∧
      cstr (remove_spaces (strcpy [] (buffer_string (root_slot example_volume 0) [65, 0])))
        = [83, 85, 66, 68, 73, 82, 65] :=
  ⟨by decide, by decide,
   fun unwritten filename =>
     name_overflow (root_slot example_volume 1) unwritten filename (by decide) (by decide),
   by decide,
   fun unwritten => buffer_string_unwritten (root_slot example_volume 0) unwritten (by decide),
   by decide⟩

/-! ## The path `/`, the token count, the FAT entry, the zero sector size -/

/-- C16, the code on the path `/`. On every volume `strtok` finds no token in `/`, the
loop over the tokens is not entered and `find_directory_entry` returns -ENOENT
(line 469), without filling the entry. -/
theorem find_directory_entry_root_path (fuel : Nat) (volume : fat12volume)
    (entry temp : dir_entry) :
    find_directory_entry fuel volume [47] entry temp = (.enoent, []) ∧
      Outcome.enoent.code = some (-2) := by
  refine ⟨?_, rfl⟩
  simp [find_directory_entry, cstr, strtok]

set_option maxRecDepth 20000 in
/-- C17, the code at the failing inputs. `count_tokens` counts the `/` characters:
it gives 2 for `/A/` and for `//A`, where `strtok` yields the single token `A`. On
`/SUBDIR/` the resolver therefore takes the match of `SUBDIR` for a match of a
non-final component and calls `remove_spaces` on the NULL token. -/
theorem count_tokens_counts_slashes :
    count_tokens [47, 65, 47] = 2 ∧ path_tokens [47, 65, 47] = [[65]] ∧
      count_tokens [47, 47, 65] = 2 ∧ path_tokens [47, 47, 65] = [[65]] ∧
      find_directory_entry 1 example_volume [47, 83, 85, 66, 68, 73, 82, 47]
        blank_entry blank_entry = (.fault, []) := by
  refine ⟨by decide, by decide, by decide, by decide, by decide⟩

/-- C18. For every cluster number `c` whose 3-byte window lies inside the loaded FAT
(fewer than `2 ^ 31` bytes, as every FAT that `read_sectors` can load), so that the
read of the code and the 16-bit read of the conventional decoding are both inside:
`get_next_cluster` returns the conventional FAT12 entry, and it is below 4096. -/
theorem get_next_cluster_conventional (volume : fat12volume) (c : Nat)
    (hlen : volume.fat_array.length < 2147483648)
    (hin : entry_window_inside volume c) :
    get_next_cluster volume c = some (conventional_fat12_entry volume.fat_array c) ∧
      conventional_fat12_entry volume.fat_array c < 4096 := by
  unfold entry_window_inside at hin
  have hpos : (if c % 2 = 0 then (c * 3) % 4294967296 / 2
      else ((c - 1) * 3) % 4294967296 / 2) = 3 * (c / 2) := by
    split
    · rw [Nat.mod_eq_of_lt (by omega)]; omega
    · rw [Nat.mod_eq_of_lt (by omega)]; omega
  have e0 := getElem?_eq_getD volume.fat_array (3 * (c / 2)) (by omega)
  have e1 := getElem?_eq_getD volume.fat_array (3 * (c / 2) + 1) (by omega)
  have e2 := getElem?_eq_getD volume.fat_array (3 * (c / 2) + 2) (by omega)
  have hread := read_unsigned_le_three volume.fat_array (3 * (c / 2)) _ _ _ e0 e1 e2
  have b0 := byte_at_lt volume.fat_array (3 * (c / 2))
  have b1 := byte_at_lt volume.fat_array (3 * (c / 2) + 1)
  have b2 := byte_at_lt volume.fat_array (3 * (c / 2) + 2)
  simp only [get_next_cluster, hpos, hread, conventional_fat12_entry, le16]
  by_cases hc : c % 2 = 0
  · have hi : c + c / 2 = 3 * (c / 2) := by omega
    simp only [hc, if_true, hi]
    unfold byte_at at b0 b1 b2 ⊢
    refine ⟨?_, ?_⟩
    · congr 1
      omega
    · omega
  · have hi : c + c / 2 = 3 * (c / 2) + 1 := by omega
    have hidx : 3 * (c / 2) + 1 + 1 = 3 * (c / 2) + 2 := by omega
    simp only [hc, if_false, hi, hidx]
    unfold byte_at at b0 b1 b2 ⊢
    refine ⟨?_, ?_⟩
    · congr 1
      omega
    · omega

/-- Witness of C18: cluster 5 of the example volume (odd, entry 0xFF8 in the bytes
6 to 8 of the FAT). -/
theorem get_next_cluster_conventional_witness :
    get_next_cluster example_volume 5
        = some (conventional_fat12_entry example_volume.fat_array 5) ∧
      conventional_fat12_entry example_volume.fat_array 5 < 4096 :=
  get_next_cluster_conventional example_volume 5 (by decide) (by decide)

/-- With a sector size of 0, `read_sectors` returns 0 whatever is asked. -/
theorem read_sectors_zero_sector_size (volume : fat12volume) (first_sector num_sectors : Nat)
    (hz : volume.sector_size = 0) :
    ∃ b, read_sectors volume first_sector num_sectors = some (0, b) := by
  by_cases hn : num_sectors = 0
  · exact ⟨none, by simp [read_sectors, hn]⟩
  · exact ⟨some [], by simp [read_sectors, hz, hn]⟩

/-- C19. For every store that holds the boot-sector fields read by
`open_volume_file` (30 bytes) and declares 0 bytes per sector: the read of the FAT
returns 0 bytes and `open_volume_file` returns NULL there, before the division by
`sector_size` (which the embedding would report as `fault`). -/
theorem open_volume_file_zero_sector_size (file : List Nat) (hlen : 30 ≤ file.length)
    (hz : le16 file 11 = 0) :
    open_volume_file file = .null ∧
      ∀ (volume : fat12volume) (first_sector num_sectors : Nat), volume.sector_size = 0 →
        ∃ b, read_sectors volume first_sector num_sectors = some (0, b) := by
  refine ⟨?_, fun volume f n h => read_sectors_zero_sector_size volume f n h⟩
  have h1 := read_unsigned_le_two file 11 (by omega)
  have h2 := read_unsigned_le_one file 13 (by omega)
  have h3 := read_unsigned_le_two file 14 (by omega)
  have h4 := read_unsigned_le_two file 28 (by omega)
  have h5 := read_unsigned_le_two file 22 (by omega)
  have h6 := read_unsigned_le_one file 16 (by omega)
  rw [hz] at h1
  have hne : ¬ file.length = 0 := by omega
  unfold open_volume_file
  simp only [hne, if_false, h1, h2, h3, h4, h5, h6]
  by_cases hn : le16 file 22 = 0
  · simp [read_sectors, hn]
  · simp [read_sectors, hn]

/-- Witness of C19: a store of 32 bytes whose boot sector declares 0 bytes per sector
and 1 sector per FAT. -/
theorem open_volume_file_zero_sector_size_witness :
    open_volume_file (List.replicate 22 0 ++ [1, 0] ++ List.replicate 8 0) = .null :=
  (open_volume_file_zero_sector_size (List.replicate 22 0 ++ [1, 0] ++ List.replicate 8 0)
    (by decide) (by decide)).1

set_option maxRecDepth 20000 in
/-- C15, the code at the failing input. In the example volume neither the root
directory nor the chain of `SUBDIR` (clusters 2, 3, ending in 0xFF8) has a slot
`MISSING`; `/MISSING/X` returns -ENOENT, but `/SUBDIR/MISSING/X` returns -ENOTDIR,
because the chain is exhausted with `token_counter` 2 different from `token_count` 3. -/
theorem find_directory_entry_missing_intermediate :
    find_directory_entry 3 example_volume
        (join_path [[77, 73, 83, 83, 73, 78, 71], [88]]) blank_entry blank_entry
        = (.enoent, []) ∧
      find_directory_entry 3 example_volume
        (join_path [[83, 85, 66, 68, 73, 82], [77, 73, 83, 83, 73, 78, 71], [88]])
        blank_entry blank_entry = (.enotdir, [2, 3]) ∧
      Outcome.enoent.code = some (-2) ∧ Outcome.enotdir.code = some (-20) := by
  refine ⟨by decide, by decide, by decide, by decide⟩

/-! ## What a successful resolution returns -/

theorem fill_result_found (data : List Nat) (entry e : dir_entry) (name : List Nat)
    (h : fill_result data entry name = .found e) :
    ∃ d, fill_directory_entry data entry = some d ∧
      e = { d with filename := strcpy d.filename name } := by
  unfold fill_result at h
  cases hf : fill_directory_entry data entry with
  | none => simp [hf] at h
  | some d =>
    simp only [hf, ScanResult.found.injEq] at h
    exact ⟨d, rfl, h.symm⟩

/-- A cluster scan that returns an entry has met, at some slot of the buffer, a slot
named like the token, with `token_counter` equal to `token_count`. -/
theorem cluster_loop_found_inv (token_count : Nat) (entry : dir_entry) (token : List Nat)
    (token_counter : Nat) (buffer : List Nat) :
    ∀ (n k : Nat) (temp e : dir_entry),
      cluster_loop token_count entry token token_counter buffer n k temp = .found e →
      token_counter = token_count ∧
        ∃ j, k ≤ j ∧ j < k + n ∧ returned_from (buffer.drop (32 * j)) entry e ∧
          cstr e.filename = cstr token := by
  intro n
  induction n with
  | zero => intro k temp e h; simp [cluster_loop] at h
  | succ n ih =>
    intro k temp e h
    unfold cluster_loop at h
    cases hs : scan_slot (buffer.drop (32 * k)) temp with
    | none => simp [hs] at h
    | some t =>
      simp only [hs] at h
      split at h
      · rename_i hc
        obtain ⟨d, hd, he⟩ := fill_result_found _ _ _ _ h
        have hcmp : cstr token = cstr t.filename := by
          have := hc.1
          simpa [strcmp_eq] using this
        refine ⟨hc.2, k, Nat.le_refl k, by omega, ⟨temp, t, d, hs, hd, he⟩, ?_⟩
        rw [he, hcmp]
        exact cstr_strcpy _ _
      · split at h
        · exact ScanResult.noConfusion h
        · obtain ⟨h1, j, hj1, hj2, hr, hn⟩ := ih (k + 1) t e h
          exact ⟨h1, j, by omega, by omega, hr, hn⟩

/-- A cluster scan that stops at a match without returning has `token_counter` different
from `token_count`. -/
theorem cluster_loop_matched_inv (token_count : Nat) (entry : dir_entry) (token : List Nat)
    (token_counter : Nat) (buffer : List Nat) :
    ∀ (n k : Nat) (temp t : dir_entry),
      cluster_loop token_count entry token token_counter buffer n k temp = .matched t →
      token_counter ≠ token_count := by
  intro n
  induction n with
  | zero => intro k temp t h; simp [cluster_loop] at h
  | succ n ih =>
    intro k temp t h
    unfold cluster_loop at h
    cases hs : scan_slot (buffer.drop (32 * k)) temp with
    | none => simp [hs] at h
    | some t1 =>
      simp only [hs] at h
      split at h
      · unfold fill_result at h
        split at h <;> exact ScanResult.noConfusion h
      · rename_i hc
        split at h
        · rename_i hm
          intro heq
          exact hc ⟨hm, heq⟩
        · exact ih (k + 1) t1 t h

theorem filter_filter_spaces (s : List Nat) :
    (s.filter (fun c => c != 32)).filter (fun c => c != 32) = s.filter (fun c => c != 32) := by
  simp [List.filter_filter]

/-- A root scan that returns an entry has met, at some root slot, a slot named like
the token without its spaces, and the path has one component. -/
theorem root_loop_found_inv (volume : fat12volume) (token_count : Nat) (entry : dir_entry) :
    ∀ (n k : Nat) (token : List Nat) (temp e : dir_entry),
      root_loop volume token_count entry n k token temp = .found e →
      1 = token_count ∧
        ∃ j, k ≤ j ∧ j < k + n ∧ returned_from (root_slot volume j) entry e ∧
          cstr e.filename = (cstr token).filter (fun c => c != 32) := by
  intro n
  induction n with
  | zero => intro k token temp e h; simp [root_loop] at h
  | succ n ih =>
    intro k token temp e h
    unfold root_loop at h
    cases hs : scan_slot (volume.rootdir_array.drop (32 * k)) temp with
    | none => simp [hs] at h
    | some t =>
      simp only [hs] at h
      split at h
      · rename_i hc
        obtain ⟨d, hd, he⟩ := fill_result_found _ _ _ _ h
        have hcmp : cstr t.filename = cstr (remove_spaces token) := by
          have := hc.1
          simpa [strcmp_eq] using this
        refine ⟨hc.2, k, Nat.le_refl k, by omega, ⟨temp, t, d, hs, hd, he⟩, ?_⟩
        rw [he, ← cstr_remove_spaces, ← hcmp]
        exact cstr_strcpy _ _
      · split at h
        · exact ScanResult.noConfusion h
        · obtain ⟨h1, j, hj1, hj2, hr, hn⟩ := ih (k + 1) (remove_spaces token) t e h
          refine ⟨h1, j, by omega, by omega, hr, ?_⟩
          rw [hn, cstr_remove_spaces, filter_filter_spaces]

/-- A root scan that stops at a match without returning belongs to a path whose
`token_count` is not 1. -/
theorem root_loop_matched_inv (volume : fat12volume) (token_count : Nat) (entry : dir_entry) :
    ∀ (n k : Nat) (token : List Nat) (temp t : dir_entry),
      root_loop volume token_count entry n k token temp = .matched t → 1 ≠ token_count := by
  intro n
  induction n with
  | zero => intro k token temp t h; simp [root_loop] at h
  | succ n ih =>
    intro k token temp t h
    unfold root_loop at h
    cases hs : scan_slot (volume.rootdir_array.drop (32 * k)) temp with
    | none => simp [hs] at h
    | some t1 =>
      simp only [hs] at h
      split at h
      · unfold fill_result at h
        split at h <;> exact ScanResult.noConfusion h
      · rename_i hc
        split at h
        · rename_i hm
          intro heq
          exact hc ⟨hm, heq⟩
        · exact ih (k + 1) (remove_spaces token) t1 t h

/-! ## Paths made of components -/

theorem join_path_head (cs : List (List Nat)) : ∀ x ∈ (join_path cs).head?, x = 47 := by
  cases cs with
  | nil => simp [join_path]
  | cons c cs => simp [join_path]

theorem join_path_no_zero (cs : List (List Nat)) (h : ∀ x ∈ cs, 0 ∉ x) :
    0 ∉ join_path cs := by
  induction cs with
  | nil => simp [join_path]
  | cons c cs ih =>
    have hc : 0 ∉ c := h c (by simp)
    have hcs : 0 ∉ join_path cs := ih (fun x hx => h x (by simp [hx]))
    simp only [join_path, List.cons_append, List.mem_cons, List.mem_append]
    rintro (h0 | h0 | h0)
    · omega
    · exact hc h0
    · exact hcs h0

/-- On a path made of components, `count_tokens` is the number of components. -/
theorem count_tokens_join_path (cs : List (List Nat)) (h : ∀ x ∈ cs, 47 ∉ x ∧ 0 ∉ x) :
    count_tokens (join_path cs) = cs.length := by
  unfold count_tokens
  rw [cstr_of_no_zero _ (join_path_no_zero cs (fun x hx => (h x hx).2))]
  induction cs with
  | nil => simp [join_path]
  | cons c cs ih =>
    have hc : 47 ∉ c := (h c (by simp)).1
    have := ih (fun x hx => h x (by simp [hx]))
    simp only [join_path, List.cons_append, List.count_cons, List.count_append,
      count_slash_of_not_mem c hc, this]
    simp

theorem strtok_join_path (c : List Nat) (cs : List (List Nat)) (hne : c ≠ [])
    (h47 : 47 ∉ c) :
    strtok (join_path (c :: cs)) = some (c ++ [0], (join_path cs).drop 1) := by
  have := strtok_component c (join_path cs) hne h47 (join_path_head cs)
  simp only [join_path, List.cons_append, strtok_slash]
  exact this

theorem strtok_drop_join_path (cs : List (List Nat)) :
    strtok ((join_path cs).drop 1) = strtok (join_path cs) := by
  cases cs with
  | nil => simp [join_path]
  | cons c cs => simp [join_path, strtok_slash]

/-! ## The invariant of the cluster loop -/

theorem chain_loop_succ (volume : fat12volume) (token_count : Nat) (entry : dir_entry)
    (fuel : Nat) (st : Cursor) (curr : Nat) :
    chain_loop volume token_count entry (fuel + 1) st curr
      = match buffer_scan volume token_count entry st with
        | .fault => (.fault, st.reads)
        | .found e => (.ret0 e, st.reads)
        | .matched t =>
          match next_component volume { st with temp := t } with
          | none => (.fault, st.reads)
          | some st1 => chain_loop volume token_count entry fuel st1 t.first_cluster
        | .exhausted t =>
          match get_next_cluster volume curr with
          | none => (.fault, st.reads)
          | some next_cluster_number =>
            if next_cluster_number = 4088 then
              (if st.token_counter = token_count then .enoent else .enotdir, st.reads)
            else
              match read_cluster volume next_cluster_number with
              | none => (.fault, st.reads ++ [next_cluster_number])
              | some (_, b) =>
                chain_loop volume token_count entry fuel
                  { st with
                    temp := t
                    buffer := match b with
                      | some data => some data
                      | none => st.buffer
                    reads := st.reads ++ [next_cluster_number] }
                  next_cluster_number := rfl

theorem buffer_scan_found_inv (volume : fat12volume) (token_count : Nat) (entry : dir_entry)
    (st : Cursor) (e : dir_entry) (h : buffer_scan volume token_count entry st = .found e) :
    st.token_counter = token_count ∧
      ∃ buffer j, st.buffer = some buffer ∧ j < cluster_slots volume ∧
        returned_from (buffer.drop (32 * j)) entry e ∧ cstr e.filename = cstr st.token := by
  unfold buffer_scan at h
  cases hb : st.buffer with
  | none =>
    simp only [hb] at h
    split at h <;> exact ScanResult.noConfusion h
  | some buffer =>
    simp only [hb] at h
    obtain ⟨h1, j, _, hj, hr, hn⟩ := cluster_loop_found_inv _ _ _ _ _ _ _ _ _ h
    exact ⟨h1, buffer, j, rfl, by omega, hr, hn⟩

theorem buffer_scan_matched_inv (volume : fat12volume) (token_count : Nat) (entry : dir_entry)
    (st : Cursor) (t : dir_entry) (h : buffer_scan volume token_count entry st = .matched t) :
    st.token_counter ≠ token_count := by
  unfold buffer_scan at h
  cases hb : st.buffer with
  | none =>
    simp only [hb] at h
    split at h <;> exact ScanResult.noConfusion h
  | some buffer =>
    simp only [hb] at h
    exact cluster_loop_matched_inv _ _ _ _ _ _ _ _ _ h

/-- One more `read_cluster` call keeps `buffer` among the buffers loaded by the calls
listed. -/
theorem buffer_from_reads_step (volume : fat12volume) (reads : List Nat)
    (buffer : Option (List Nat)) (c n : Nat)
    (hb : buffer_from_reads volume reads buffer) :
    ∀ b : Option (List Nat), read_cluster volume c = some (n, b) →
      buffer_from_reads volume (reads ++ [c])
        (match b with
          | some data => some data
          | none => buffer) := by
  intro b hr x hx
  cases b with
  | none =>
    obtain ⟨c1, n1, hc1, hr1⟩ := hb x hx
    exact ⟨c1, n1, by simp [hc1], hr1⟩
  | some data =>
    simp only [Option.some.injEq] at hx
    subst hx
    exact ⟨c, n, by simp, hr⟩

/-- What `next_component` leaves when the string left for `strtok` starts with the
component `c`. -/
theorem next_component_inv (volume : fat12volume) (st st1 : Cursor) (c : List Nat)
    (cs : List (List Nat)) (hne : c ≠ []) (h47 : 47 ∉ c) (h0 : 0 ∉ c)
    (hrest : strtok st.rest = strtok (join_path (c :: cs)))
    (hbuf : buffer_from_reads volume st.reads st.buffer)
    (h : next_component volume st = some st1) :
    cstr st1.token = c.filter (fun x => x != 32) ∧
      strtok st1.rest = strtok (join_path cs) ∧
      st1.token_counter = st.token_counter + 1 ∧
      buffer_from_reads volume st1.reads st1.buffer := by
  unfold next_component at h
  rw [hrest, strtok_join_path c cs hne h47] at h
  simp only at h
  cases hr : read_cluster volume st.temp.first_cluster with
  | none => simp [hr] at h
  | some r =>
    obtain ⟨n, b⟩ := r
    simp only [hr, Option.some.injEq] at h
    rw [← h]
    refine ⟨?_, strtok_drop_join_path cs, rfl, ?_⟩
    · simp only [cstr_remove_spaces, cstr_append_zero c [] h0]
    · exact buffer_from_reads_step volume st.reads st.buffer _ n hbuf b hr

/-- Whenever the cluster loop returns an entry, its name is the last component of the
path without its spaces, and it comes from a slot of a buffer that one of the
`read_cluster` calls has loaded. -/
theorem chain_loop_ret0_name (volume : fat12volume) (token_count : Nat) (entry : dir_entry) :
    ∀ (fuel : Nat) (st : Cursor) (curr : Nat) (c : List Nat) (cs : List (List Nat))
      (e : dir_entry) (reads : List Nat),
      (∀ x ∈ cs, x ≠ [] ∧ 47 ∉ x ∧ 0 ∉ x) →
      cstr st.token = c.filter (fun x => x != 32) →
      strtok st.rest = strtok (join_path cs) →
      st.token_counter + cs.length = token_count →
      buffer_from_reads volume st.reads st.buffer →
      chain_loop volume token_count entry fuel st curr = (.ret0 e, reads) →
      ∃ data, scanned_slot volume reads data ∧ returned_from data entry e ∧
        cstr e.filename = (last_component c cs).filter (fun x => x != 32) := by
  intro fuel
  induction fuel with
  | zero =>
    intro st curr c cs e reads _ _ _ _ _ h
    simp [chain_loop] at h
  | succ fuel ih =>
    intro st curr c cs e reads hwf htok hrest hcnt hbuf h
    rw [chain_loop_succ] at h
    cases hscan : buffer_scan volume token_count entry st with
    | fault => simp [hscan] at h
    | found e1 =>
      simp only [hscan, Prod.mk.injEq, Outcome.ret0.injEq] at h
      obtain ⟨hc, buffer, j, hsb, hj, hr, hn⟩ :=
        buffer_scan_found_inv volume token_count entry st e1 hscan
      have hcs : cs = [] := by
        have : cs.length = 0 := by omega
        exact List.length_eq_zero.mp this
      subst hcs
      obtain ⟨c1, n1, hc1, hr1⟩ := hbuf buffer hsb
      rw [← h.1, ← h.2]
      exact ⟨buffer.drop (32 * j), Or.inr ⟨c1, n1, buffer, j, hc1, hr1, hj, rfl⟩, hr,
        by rw [hn, htok]; rfl⟩
    | matched t =>
      simp only [hscan] at h
      have hne := buffer_scan_matched_inv volume token_count entry st t hscan
      cases cs with
      | nil => simp at hcnt; exact absurd hcnt hne
      | cons c1 cs1 =>
        obtain ⟨hc1, hc47, hc0⟩ := hwf c1 (by simp)
        cases hnc : next_component volume { st with temp := t } with
        | none => simp [hnc] at h
        | some st1 =>
          simp only [hnc] at h
          obtain ⟨h1, h2, h3, h5⟩ := next_component_inv volume { st with temp := t } st1 c1 cs1
            hc1 hc47 hc0 hrest hbuf hnc
          have h4 : st1.token_counter + cs1.length = token_count := by
            rw [h3]
            simp only [List.length_cons] at hcnt
            show st.token_counter + 1 + cs1.length = token_count
            omega
          exact ih st1 t.first_cluster c1 cs1 e reads
            (fun x hx => hwf x (by simp [hx])) h1 h2 h4 h5 h
    | exhausted t =>
      simp only [hscan] at h
      cases hg : get_next_cluster volume curr with
      | none => simp [hg] at h
      | some next =>
        simp only [hg] at h
        split at h
        · split at h <;> simp at h
        · cases hr : read_cluster volume next with
          | none => simp [hr] at h
          | some r =>
            obtain ⟨n, b⟩ := r
            simp only [hr] at h
            refine ih _ next c cs e reads hwf ?_ ?_ ?_ ?_ h
            · exact htok
            · exact hrest
            · exact hcnt
            · exact buffer_from_reads_step volume st.reads st.buffer next n hbuf b hr

end Fat12
